import Mathlib

/-!
# Bookmark ingestion pipeline: a shallow embedding of `bookmarkController.js`

The controller turns a submitted URL into a persisted bookmark:
`extractWebsiteInfo` (fetch + regex scan), `generateSummary` (remote call with a local
fallback), `limitSummaryLength`, `generateBasicSummary`, and `createBookmark` which
strings them together and writes through `Bookmark.create`.

JavaScript strings are sequences of UTF-16 code units and `length`, `substring`,
`lastIndexOf`, `startsWith` all count code units, so a string is a `List Nat` of code
units here.
-/

namespace LinkSaver

/-- A JavaScript string: its UTF-16 code units, in order. -/
abbrev JSString := List Nat

/-- The code units of an ASCII literal of the source. -/
def lit (s : String) : JSString := s.toList.map Char.toNat

/-- `a.startsWith(p)`. -/
def startsWith (a p : JSString) : Bool := p.isPrefixOf a

/-- `s.substring(0, n)` for `0 ≤ n`. -/
def substring0 (s : JSString) (n : Nat) : JSString := s.take n

/-- Backward scan behind `lastIndexOf`: a hit further right wins over a hit here;
`i` is the index of the head of the list. -/
def lastIndexOfFrom (c : Nat) : JSString → Nat → Int
  | [], _ => -1
  | x :: xs, i =>
    let r := lastIndexOfFrom c xs (i + 1)
    if r ≠ -1 then r else if x = c then (i : Int) else -1

/-- `s.lastIndexOf(c)` for a one-unit needle `c`: the index of its last occurrence,
`-1` when there is none. -/
def lastIndexOf (s : JSString) (c : Nat) : Int := lastIndexOfFrom c s 0

/-- Code unit of `'.'`. -/
def period : Nat := 46

/-- `const MAX_CHARS = 1000`. -/
def MAX_CHARS : Nat := 1000

/-- `limitSummaryLength(summary)` of the controller.

The source compares `lastPeriod > MAX_CHARS * 0.7`; the double product `1000 * 0.7`
rounds to exactly `700`, so the test is `10 * lastPeriod > 7 * MAX_CHARS` on integers. -/
def limitSummaryLength (summary : JSString) : JSString :=
  if summary.length ≤ MAX_CHARS then summary
  else
    let truncated := substring0 summary MAX_CHARS
    let lastPeriod := lastIndexOf truncated period
    if 10 * lastPeriod > 7 * (MAX_CHARS : Int) then
      substring0 truncated (lastPeriod + 1).toNat
    else
      truncated ++ lit "..."

/-- Reference for the position search, following the specification's words: the index
of the last `'.'` within the first 1000 characters, if there is one. -/
def lastPeriodRef (s : JSString) : Option Nat :=
  (List.range 1000).reverse.find? (fun i => s[i]? = some 46)

/-- Reference definition of the length limiter, following the specification's words. -/
def limitSummaryLengthRef (s : JSString) : JSString :=
  if s.length ≤ 1000 then s
  else
    match lastPeriodRef s with
    | some p => if p > 700 then s.take (p + 1) else s.take 1000 ++ lit "..."
    | none => s.take 1000 ++ lit "..."

/-! ## String helpers of the platform used by the controller -/

/-- `title || url` on strings: the left operand unless it is the empty string. -/
def orElseStr (a b : JSString) : JSString := if a ≠ [] then a else b

/-- White space and line terminators removed by `String.prototype.trim`. -/
def isTrimmable (c : Nat) : Bool :=
  c = 9 || c = 10 || c = 11 || c = 12 || c = 13 || c = 32 || c = 160 || c = 5760 ||
  (8192 ≤ c && c ≤ 8202) || c = 8232 || c = 8233 || c = 8239 || c = 8287 || c = 12288 ||
  c = 65279

/-- `s.trim()`. -/
def trim (s : JSString) : JSString :=
  ((s.dropWhile isTrimmable).reverse.dropWhile isTrimmable).reverse

/-- `s.replace(pat, rep)` with a string pattern and a replacement free of `$`: only the
first occurrence of `pat`, wherever it stands, is replaced. -/
def replaceFirst (pat rep : JSString) : JSString → JSString
  | [] => if pat.isPrefixOf [] then rep else []
  | x :: xs =>
    if pat.isPrefixOf (x :: xs) then rep ++ (x :: xs).drop pat.length
    else x :: replaceFirst pat rep xs

/-- `s.split(sep)[0]` for a one-unit separator: the units before the first `sep`. -/
def splitHead (sep : Nat) (s : JSString) : JSString := s.takeWhile (fun c => c != sep)

/-- Scheme normalisation shared by `extractWebsiteInfo` and `generateSummary`:
`if (!url.startsWith('http://') && !url.startsWith('https://')) url = 'https://' + url`. -/
def ensureProtocol (url : JSString) : JSString :=
  if !startsWith url (lit "http://") && !startsWith url (lit "https://") then
    lit "https://" ++ url
  else url

/-! ## The two regular expressions of `extractWebsiteInfo`

Both carry the `i` flag and use only literals, classes of punctuation, greedy `*` and
`+` over such a class, one optional literal and one capture group. Under `i` (without
`u`) a code unit outside ASCII never canonicalises to an ASCII one, so a pattern unit
matches an input unit exactly when they agree after ASCII upper-casing. -/

/-- Canonicalisation of a code unit for matching against ASCII pattern units under `i`. -/
def canon (c : Nat) : Nat := if 97 ≤ c ∧ c ≤ 122 then c - 32 else c

/-- The regular-expression fragment the controller uses; `neg` marks a class `[^...]`. -/
inductive Re where
  | lits (cs : JSString)
  | cls (neg : Bool) (set : JSString)
  | star (neg : Bool) (set : JSString)
  | plus (neg : Bool) (set : JSString)
  | opt (r : Re)
  | group (r : Re)
  | seq (a b : Re)

/-- Does the input unit `x` match the class `[set]` (or `[^set]` when `neg`)? -/
def inClass (neg : Bool) (set : JSString) (x : Nat) : Bool :=
  (set.map canon).contains (canon x) != neg

/-- Strip a literal from the front of the input, comparing canonicalised units. -/
def stripLits : JSString → JSString → Option JSString
  | [], s => some s
  | _ :: _, [] => none
  | c :: cs, x :: xs => if canon x = canon c then stripLits cs xs else none

/-- Greedy class repetition followed by the continuation `k`: take as many units as
possible, give them back one at a time while the rest of the pattern fails. -/
def starRun {α : Type} (neg : Bool) (set : JSString) :
    JSString → (JSString → Option α) → Option α
  | [], k => k []
  | x :: xs, k =>
    if inClass neg set x then
      match starRun neg set xs k with
      | some r => some r
      | none => k (x :: xs)
    else k (x :: xs)

/-- Backtracking matcher in continuation-passing style: `run r s cap k` matches `r` at the
front of `s` and hands the rest of the input and capture group 1 to `k`; the first
success in the engine's priority order wins. -/
def Re.run {α : Type} : Re → JSString → Option JSString →
    (JSString → Option JSString → Option α) → Option α
  | .lits cs, s, cap, k =>
    match stripLits cs s with
    | some rest => k rest cap
    | none => none
  | .cls neg set, s, cap, k =>
    match s with
    | x :: xs => if inClass neg set x then k xs cap else none
    | [] => none
  | .star neg set, s, cap, k => starRun neg set s (fun rest => k rest cap)
  | .plus neg set, s, cap, k =>
    match s with
    | x :: xs => if inClass neg set x then starRun neg set xs (fun rest => k rest cap) else none
    | [] => none
  | .opt r, s, cap, k =>
    match r.run s cap k with
    | some res => some res
    | none => k s cap
  | .group r, s, _, k =>
    r.run s none (fun rest _ => k rest (some (s.take (s.length - rest.length))))
  | .seq a b, s, cap, k => a.run s cap (fun rest cap1 => b.run rest cap1 k)

/-- `s.match(re)` for a non-global `re`: the leftmost match, as the value of capture
group 1 (`none` inside when the group did not take part), or `none` for `null`. -/
def Re.exec (r : Re) : JSString → Option (Option JSString)
  | [] => r.run [] none (fun _ cap => some cap)
  | x :: xs =>
    match r.run (x :: xs) none (fun _ cap => some cap) with
    | some cap => some cap
    | none => r.exec xs

/-- Sequence of pattern items, left to right. -/
def Re.cat : List Re → Re
  | [] => .lits []
  | [r] => r
  | r :: rs => .seq r (Re.cat rs)

/-- The pattern contains no capture group. -/
def Re.groupFree : Re → Bool
  | .group _ => false
  | .opt r => r.groupFree
  | .seq a b => a.groupFree && b.groupFree
  | _ => true

/-- The class of the two quote units, written `["\x27]` in the source patterns. -/
def quotes : JSString := [34, 39]

/-- Title pattern: `<title[^>]*>([^<]+)<\/title>` with flag `i`. -/
def titleRe : Re :=
  Re.cat [.lits (lit "<title"), .star true (lit ">"), .lits (lit ">"),
    .group (.plus true (lit "<")), .lits (lit "</title>")]

/-- Favicon pattern with flag `i`: `<link[^>]*rel=Q(?:shortcut )?iconQ[^>]*href=Q([^Q]+)Q[^>]*>`
where `Q` stands for the class of the two quote units. -/
def faviconRe : Re :=
  Re.cat [.lits (lit "<link"), .star true (lit ">"), .lits (lit "rel="), .cls false quotes,
    .opt (.lits (lit "shortcut ")), .lits (lit "icon"), .cls false quotes,
    .star true (lit ">"), .lits (lit "href="), .cls false quotes,
    .group (.plus true quotes), .cls false quotes, .star true (lit ">"), .lits (lit ">")]

/-- Capture group 1 of a match result when `m && m[1]` is truthy. -/
def truthyGroup1 : Option (Option JSString) → Option JSString
  | some (some g) => if g ≠ [] then some g else none
  | _ => none

/-! ## The outside world: exceptions, external calls, configuration -/

/-- Exceptions and promise rejections the controller can meet. -/
inductive JSError where
  | typeError
  | fetchError
  | axiosError
  | sqliteError
  deriving DecidableEq, Repr

/-- What `new URL(s)` exposes to the controller. -/
structure URLRecord where
  protocol : JSString
  hostname : JSString
  deriving DecidableEq, Repr

/-- The `summary` property of a response body. -/
inductive SummaryField where
  | absent
  | falsy
  | text (s : JSString)
  | truthyOther
  deriving DecidableEq, Repr

/-- The `data` of a successful axios response: a string body, an object with its
`summary` property, or any other value with its truthiness. -/
inductive ResponseData where
  | text (s : JSString)
  | object (summary : SummaryField)
  | other (truthy : Bool)
  deriving DecidableEq, Repr

/-- External calls, recorded in the order they are issued. -/
inductive Call where
  | fetch (url : JSString)
  | axiosPost (url : JSString) (apiKey : JSString)
  | dbInsert (userId : Nat) (url title favicon summary : JSString)
  deriving DecidableEq, Repr

/-- Everything outside the controller: the URL parser of the platform, the network, the
environment variable holding the credential, the clock and faults of the database. -/
structure World where
  parseURL : JSString → Option URLRecord
  fetchText : JSString → Option JSString
  JINA_API_KEY : Option JSString
  axiosPost : JSString → JSString → Option ResponseData
  dbFault : Option JSError
  now : Nat

/-- A computation that issues external calls and then returns or throws. -/
structure Eff (α : Type) where
  calls : List Call
  out : Except JSError α

/-- Return a value without any call. -/
def Eff.ret {α : Type} (a : α) : Eff α := ⟨[], .ok a⟩

/-- Throw without any call. -/
def Eff.throw {α : Type} (e : JSError) : Eff α := ⟨[], .error e⟩

/-- Sequencing: a throw on the left skips the right. -/
def Eff.andThen {α β : Type} (m : Eff α) (f : α → Eff β) : Eff β :=
  match m.out with
  | .ok a => ⟨m.calls ++ (f a).calls, (f a).out⟩
  | .error e => ⟨m.calls, .error e⟩

/-- `try { m } catch (e) { h e }`. -/
def Eff.tryCatch {α : Type} (m : Eff α) (h : JSError → Eff α) : Eff α :=
  match m.out with
  | .ok a => ⟨m.calls, .ok a⟩
  | .error e => ⟨m.calls ++ (h e).calls, (h e).out⟩

instance : Monad Eff where
  pure := Eff.ret
  bind := Eff.andThen

/-- `new URL(url)`: throws a `TypeError` on an invalid URL. -/
def newURL (w : World) (url : JSString) : Eff URLRecord :=
  match w.parseURL url with
  | some u => Eff.ret u
  | none => Eff.throw .typeError

/-- `await fetch(url)` followed by `await response.text()`. -/
def fetchHtml (w : World) (url : JSString) : Eff JSString :=
  ⟨[.fetch url], match w.fetchText url with
    | some html => .ok html
    | none => .error .fetchError⟩

/-- `await axios.post('https://r.jina.ai/', {url}, {headers})`: rejects on a transport
error and on a status outside 2xx. -/
def postJina (w : World) (url apiKey : JSString) : Eff ResponseData :=
  ⟨[.axiosPost url apiKey], match w.axiosPost url apiKey with
    | some d => .ok d
    | none => .error .axiosError⟩

/-! ## The controller -/

/-- What `extractWebsiteInfo` returns. -/
structure WebsiteInfo where
  title : JSString
  favicon : JSString
  deriving DecidableEq, Repr

/-- Resolution of a favicon `href` found in the page against the page URL. -/
def resolveFavicon (urlObj : URLRecord) (faviconUrl : JSString) : JSString :=
  if startsWith faviconUrl (lit "/") then
    urlObj.protocol ++ lit "//" ++ urlObj.hostname ++ faviconUrl
  else if !startsWith faviconUrl (lit "http") then
    urlObj.protocol ++ lit "//" ++ urlObj.hostname ++ lit "/" ++ faviconUrl
  else faviconUrl

/-- `extractWebsiteInfo(url)`. The parameter `url` is reassigned by the scheme
normalisation (which cannot throw on a string) and the `catch` block reads the
reassigned variable. -/
def extractWebsiteInfo (w : World) (url : JSString) : Eff WebsiteInfo :=
  let url := ensureProtocol url
  Eff.tryCatch
    (do
      let html ← fetchHtml w url
      let title := match truthyGroup1 (titleRe.exec html) with
        | some g => trim g
        | none => []
      let urlObj ← newURL w url
      let favicon := urlObj.protocol ++ lit "//" ++ urlObj.hostname ++ lit "/favicon.ico"
      let favicon := match truthyGroup1 (faviconRe.exec html) with
        | some faviconUrl => resolveFavicon urlObj faviconUrl
        | none => favicon
      pure { title := title, favicon := favicon })
    (fun _ => Eff.ret { title := url, favicon := [] })

/-- `generateBasicSummary(url, title)`. -/
def generateBasicSummary (w : World) (url title : JSString) : Eff JSString := do
  let urlObj ← newURL w url
  let domain := urlObj.hostname
  let cleanDomain := splitHead period (replaceFirst (lit "www.") [] domain)
  pure (lit "Bookmark from " ++ cleanDomain ++ lit ": \"" ++ orElseStr title url
    ++ lit "\". Access this link to view the full content.")

/-- The remote branch of `generateSummary`: `some s` when the inner `try` returns `s`,
`none` when control falls out of it (no usable body, or a caught error). -/
def remoteSummary (w : World) (url jinaApiKey : JSString) : Eff (Option JSString) :=
  Eff.tryCatch
    (do
      let data ← postJina w url jinaApiKey
      match data with
      | .object (.text s) =>
        if s ≠ [] then pure (some (limitSummaryLength (trim s))) else pure none
      | .object .truthyOther => Eff.throw .typeError
      | .object _ => pure none
      | .text s => if s ≠ [] then pure (some (limitSummaryLength (trim s))) else pure none
      | .other _ => pure none)
    (fun _ => Eff.ret none)

/-- `generateSummary(url, title)`. As in `extractWebsiteInfo` the outer `catch` reads the
reassigned `url`. `!jinaApiKey` holds for an unset variable and for the empty string. -/
def generateSummary (w : World) (url title : JSString) : Eff JSString :=
  let url := ensureProtocol url
  Eff.tryCatch
    (match w.JINA_API_KEY with
     | none => generateBasicSummary w url title
     | some jinaApiKey =>
       if jinaApiKey = [] then generateBasicSummary w url title
       else do
         let r ← remoteSummary w url jinaApiKey
         match r with
         | some s => pure s
         | none => generateBasicSummary w url title)
    (fun _ => Eff.ret (lit "Bookmark saved: " ++ orElseStr title url))

/-! ## The bookmark store and `Bookmark.create` -/

/-- A row of table `bookmarks`. -/
structure BookmarkRow where
  id : Nat
  user_id : Nat
  url : JSString
  title : JSString
  favicon : JSString
  summary : JSString
  created_at : Nat
  deriving DecidableEq, Repr

/-- The table `bookmarks` with its `AUTOINCREMENT` counter. -/
structure Store where
  rows : List BookmarkRow
  seq : Nat
  deriving DecidableEq, Repr

/-- The object `Bookmark.create` resolves with. -/
structure BookmarkObject where
  id : Nat
  userId : Nat
  url : JSString
  title : JSString
  favicon : JSString
  summary : JSString
  deriving DecidableEq, Repr

/-- `Bookmark.create(userId, url, title, favicon, summary)`: one `INSERT`; rejects with
the database error, resolves with the new id and the five arguments. -/
def Bookmark.create (w : World) (db : Store) (userId : Nat) (url title favicon summary : JSString) :
    Store × Except JSError BookmarkObject :=
  match w.dbFault with
  | some err => (db, .error err)
  | none =>
    let lastID := db.seq + 1
    let row : BookmarkRow :=
      { id := lastID, user_id := userId, url := url, title := title, favicon := favicon,
        summary := summary, created_at := w.now }
    let bookmark : BookmarkObject :=
      { id := lastID, userId := userId, url := url, title := title, favicon := favicon,
        summary := summary }
    ({ rows := db.rows ++ [row], seq := lastID }, .ok bookmark)

/-- An authenticated request to `POST /api/bookmarks` after the validation chain ran. -/
structure Request where
  url : JSString
  userId : Nat
  validationErrors : List JSString

/-- JSON bodies the handler sends. -/
inductive ResponseBody where
  | errors (errs : List JSString)
  | message (m : JSString)
  | saved (m : JSString) (bookmark : BookmarkObject)
  deriving DecidableEq, Repr

/-- Status and body sent by a handler. -/
structure Response where
  status : Nat
  body : ResponseBody
  deriving DecidableEq, Repr

/-- Everything observable of one handler run. -/
structure Handled where
  response : Response
  db : Store
  calls : List Call

/-- `createBookmark(req, res)`. -/
def createBookmark (w : World) (db : Store) (req : Request) : Handled :=
  if !req.validationErrors.isEmpty then
    ⟨⟨400, .errors req.validationErrors⟩, db, []⟩
  else
    let url := req.url
    let userId := req.userId
    let helpers : Eff (WebsiteInfo × JSString) := do
      let info ← extractWebsiteInfo w url
      let summary ← generateSummary w url info.title
      pure (info, summary)
    match helpers.out with
    | .error _ => ⟨⟨500, .message (lit "Error saving bookmark")⟩, db, helpers.calls⟩
    | .ok (info, summary) =>
      let calls := helpers.calls ++ [.dbInsert userId url info.title info.favicon summary]
      match Bookmark.create w db userId url info.title info.favicon summary with
      | (db1, .ok bookmark) =>
        ⟨⟨201, .saved (lit "Bookmark saved successfully") bookmark⟩, db1, calls⟩
      | (db1, .error _) => ⟨⟨500, .message (lit "Error saving bookmark")⟩, db1, calls⟩

/-! ## Sample worlds -/

/-- Parsed form of a few plain URLs, as the platform parser reports them. -/
def sampleParseURL (s : JSString) : Option URLRecord :=
  if s = lit "https://www.example.com/page" then some ⟨lit "https:", lit "www.example.com"⟩
  else if s = lit "https://example.com" then some ⟨lit "https:", lit "example.com"⟩
  else if s = lit "https://awww.example.com/" then some ⟨lit "https:", lit "awww.example.com"⟩
  else if s = lit "https://site.com" then some ⟨lit "https:", lit "site.com"⟩
  else none

/-- A world without credential whose network is down. -/
def offlineWorld : World :=
  { parseURL := sampleParseURL, fetchText := fun _ => none, JINA_API_KEY := none,
    axiosPost := fun _ _ => none, dbFault := none, now := 0 }

/-- A world with a credential in which page fetch and summariser both fail. -/
def unreachableWorld : World :=
  { offlineWorld with JINA_API_KEY := some (lit "key") }

/-- A world serving the page `html` for every URL, without credential. -/
def pageWorld (html : JSString) : World :=
  { offlineWorld with fetchText := fun _ => some html }

/-- A world with a credential whose summariser answers `data` to every request. -/
def remoteWorld (data : ResponseData) : World :=
  { offlineWorld with JINA_API_KEY := some (lit "key"), axiosPost := fun _ _ => some data }

/-- Parsed form of an `ftp:` URL, and of the same string behind `https://`, as the
platform parser reports them: in the second the authority ends at the first `/`, so the
host is `ftp` with an empty port. -/
def ftpParseURL (s : JSString) : Option URLRecord :=
  if s = lit "ftp://www.example.com/page" then some ⟨lit "ftp:", lit "www.example.com"⟩
  else if s = lit "https://ftp://www.example.com/page" then some ⟨lit "https:", lit "ftp"⟩
  else none

/-- A world without credential, network down, that parses the two URLs above. -/
def ftpWorld : World :=
  { offlineWorld with parseURL := ftpParseURL }

/-! ## Owner-scoped lookup and delete -/

/-- The `WHERE id = ? AND user_id = ?` clause. The first parameter is the integer the
bound value denotes under the INTEGER affinity of column `id`, `none` for a value that
denotes none and so equals no id. -/
def ownedBy (id : Option Nat) (userId : Nat) (row : BookmarkRow) : Bool :=
  decide (some row.id = id) && decide (row.user_id = userId)

/-- `Bookmark.getById(id, userId)`: one `SELECT`; rejects with the database error,
resolves with the first matching row or `undefined`. -/
def Bookmark.getById (w : World) (db : Store) (id : Option Nat) (userId : Nat) :
    Except JSError (Option BookmarkRow) :=
  match w.dbFault with
  | some err => .error err
  | none => .ok (db.rows.find? (ownedBy id userId))

/-- What `Bookmark.delete` resolves with. -/
structure DeleteResult where
  deleted : Bool
  deriving DecidableEq, Repr

/-- `Bookmark.delete(id, userId)`: one `DELETE`; rejects with the database error,
resolves with `deleted: this.changes > 0` where `changes` counts the removed rows. -/
def Bookmark.delete (w : World) (db : Store) (id : Option Nat) (userId : Nat) :
    Store × Except JSError DeleteResult :=
  match w.dbFault with
  | some err => (db, .error err)
  | none =>
    let changes := (db.rows.filter (ownedBy id userId)).length
    ({ rows := db.rows.filter (fun row => !ownedBy id userId row), seq := db.seq },
     .ok { deleted := decide (changes > 0) })

/-- An authenticated request to `DELETE /api/bookmarks/:id`. -/
structure DeleteRequest where
  id : Option Nat
  userId : Nat

/-- `deleteBookmark(req, res)`: the response sent and the store left behind. -/
def deleteBookmark (w : World) (db : Store) (req : DeleteRequest) : Response × Store :=
  let bookmarkId := req.id
  let userId := req.userId
  match Bookmark.delete w db bookmarkId userId with
  | (db1, .ok result) =>
    if !result.deleted then (⟨404, .message (lit "Bookmark not found")⟩, db1)
    else (⟨200, .message (lit "Bookmark deleted successfully")⟩, db1)
  | (db1, .error _) => (⟨500, .message (lit "Error deleting bookmark")⟩, db1)

/-- What `INTEGER PRIMARY KEY AUTOINCREMENT` maintains: ids are pairwise distinct and
none exceeds the counter. -/
def Store.wellFormed (db : Store) : Prop :=
  (db.rows.map BookmarkRow.id).Nodup ∧ ∀ row ∈ db.rows, row.id ≤ db.seq

instance (db : Store) : Decidable db.wellFormed := by
  unfold Store.wellFormed
  exact inferInstance

/-- A store holding bookmark 1 of user 7 and bookmark 2 of user 8. -/
def sampleStore : Store :=
  { rows := [⟨1, 7, lit "example.com", lit "Example", [], lit "first", 0⟩,
             ⟨2, 8, lit "site.com", lit "Site", [], lit "second", 0⟩],
    seq := 2 }

/-! ## Icon link tags as plain text -/

/-- Does `pat` start `s`, letter case ignored? -/
def startsCI (pat s : JSString) : Bool := (pat.map canon).isPrefixOf (s.map canon)

/-- Does `pat` occur somewhere in `s`, letter case ignored? -/
def occursCI (pat : JSString) : JSString → Bool
  | [] => startsCI pat []
  | x :: xs => startsCI pat (x :: xs) || occursCI pat xs

/-- The text up to, not including, the first `>`. -/
def uptoGt (s : JSString) : JSString := s.takeWhile (fun c => c != 62)

/-- No icon link starts inside `pre` when `pre` is followed by `rest`: wherever `<link`
starts there, letter case ignored, the text from there up to the next `>` does not
contain `icon`. -/
def noIconLinkBefore : JSString → JSString → Bool
  | [], _ => true
  | x :: xs, rest =>
    (!startsCI (lit "<link") (x :: xs ++ rest)
      || !occursCI (lit "icon") (uptoGt (x :: xs ++ rest)))
    && noIconLinkBefore xs rest

/-- The pieces of a tag `<link a1 rel=Q[shortcut ]iconQ a2 href=Q r Q a3>`: `q1` to `q4` are
the four quote units, `a1`, `a2`, `a3` the remaining attribute text, `href` the value `r`. -/
structure IconLink where
  opener : JSString
  a1 : JSString
  relKey : JSString
  q1 : Nat
  shortcut : JSString
  icon : JSString
  q2 : Nat
  a2 : JSString
  hrefKey : JSString
  q3 : Nat
  href : JSString
  q4 : Nat
  a3 : JSString

/-- The tag from its `href=` up to, not including, the closing `>`. -/
def IconLink.hrefPart (t : IconLink) : JSString :=
  t.hrefKey ++ (t.q3 :: (t.href ++ (t.q4 :: t.a3)))

/-- The tag from its `rel=` up to, not including, the closing `>`. -/
def IconLink.relPart (t : IconLink) : JSString :=
  t.relKey ++ (t.q1 :: (t.shortcut ++ (t.icon ++ (t.q2 :: (t.a2 ++ t.hrefPart)))))

/-- The whole tag. -/
def IconLink.text (t : IconLink) : JSString :=
  t.opener ++ (t.a1 ++ (t.relPart ++ [62]))

/-- The pieces spell an icon link: the keywords up to letter case, quotes where quotes
belong, a non-empty value free of quotes, no `>` inside the tag, and the `rel=` and the
`href=` of the pieces are the last ones in the tag. -/
def IconLink.wellFormed (t : IconLink) : Prop :=
  t.opener.map canon = (lit "<link").map canon ∧
  t.relKey.map canon = (lit "rel=").map canon ∧
  (t.shortcut = [] ∨ t.shortcut.map canon = (lit "shortcut ").map canon) ∧
  t.icon.map canon = (lit "icon").map canon ∧
  t.hrefKey.map canon = (lit "href=").map canon ∧
  t.q1 ∈ quotes ∧ t.q2 ∈ quotes ∧ t.q3 ∈ quotes ∧ t.q4 ∈ quotes ∧
  t.href ≠ [] ∧ (∀ c ∈ t.href, c ∉ quotes) ∧
  62 ∉ t.a1 ∧ 62 ∉ t.a2 ∧ 62 ∉ t.a3 ∧ 62 ∉ t.href ∧
  occursCI (lit "rel=") t.relPart.tail = false ∧
  occursCI (lit "href=") t.hrefPart.tail = false

instance (t : IconLink) : Decidable t.wellFormed := by
  unfold IconLink.wellFormed
  exact inferInstance

/-! ## Position search: both searches find the last occurrence -/

theorem last_occurrence_split (c : Nat) (xs : JSString) (h : c ∈ xs) :
    ∃ a b, xs = a ++ c :: b ∧ c ∉ b := by
  induction xs with
  | nil => simp at h
  | cons x xs ih =>
    by_cases hx : c ∈ xs
    · obtain ⟨a, b, hab, hb⟩ := ih hx
      exact ⟨x :: a, b, by simp [hab], hb⟩
    · have hxc : c = x := by
        rcases List.mem_cons.mp h with h1 | h1
        · exact h1
        · exact absurd h1 hx
      exact ⟨[], xs, by simp [hxc], hx⟩

theorem lastIndexOfFrom_absent (c : Nat) (xs : JSString) (i : Nat) (h : c ∉ xs) :
    lastIndexOfFrom c xs i = -1 := by
  induction xs generalizing i with
  | nil => rfl
  | cons x xs ih =>
    have h1 : c ∉ xs := fun hm => h (List.mem_cons_of_mem _ hm)
    have h2 : ¬ x = c := fun e => h (by simp [e])
    simp [lastIndexOfFrom, ih (i + 1) h1, h2]

theorem lastIndexOfFrom_split (c : Nat) (a b : JSString) (i : Nat) (h : c ∉ b) :
    lastIndexOfFrom c (a ++ c :: b) i = ((i + a.length : Nat) : Int) := by
  induction a generalizing i with
  | nil =>
    simp [lastIndexOfFrom, lastIndexOfFrom_absent c b (i + 1) h]
  | cons x a ih =>
    have e : lastIndexOfFrom c (a ++ c :: b) (i + 1) = ((i + 1 + a.length : Nat) : Int) :=
      ih (i + 1)
    have ne : ((i + 1 + a.length : Nat) : Int) ≠ -1 := by omega
    show (if lastIndexOfFrom c (a ++ c :: b) (i + 1) ≠ -1
      then lastIndexOfFrom c (a ++ c :: b) (i + 1)
      else if x = c then (i : Int) else -1) = _
    rw [e, if_pos ne, List.length_cons]
    congr 1
    omega

theorem findLast_succ (p : Nat → Bool) (n : Nat) :
    (List.range (n + 1)).reverse.find? p
      = if p n then some n else (List.range n).reverse.find? p := by
  rw [List.range_succ, List.reverse_append]
  simp [List.find?_cons]
  cases p n <;> simp

theorem findLast_none (p : Nat → Bool) (n : Nat) (h : ∀ j, j < n → p j = false) :
    (List.range n).reverse.find? p = none := by
  induction n with
  | zero => simp
  | succ n ih =>
    rw [findLast_succ, h n (Nat.lt_succ_self n)]
    simpa using ih (fun j hj => h j (Nat.lt_succ_of_lt hj))

theorem findLast_some (p : Nat → Bool) (n k : Nat) (hk : k < n) (hp : p k = true)
    (h : ∀ j, k < j → j < n → p j = false) :
    (List.range n).reverse.find? p = some k := by
  induction n with
  | zero => omega
  | succ n ih =>
    rw [findLast_succ]
    by_cases e : k = n
    · subst e; simp [hp]
    · have hkn : k < n := by omega
      rw [h n hkn (Nat.lt_succ_self n)]
      simpa using ih hkn (fun j h1 h2 => h j h1 (Nat.lt_succ_of_lt h2))

/-! ## Closed forms of the length limiter -/

theorem limit_short (s : JSString) (h : s.length ≤ 1000) : limitSummaryLength s = s := by
  simp [limitSummaryLength, MAX_CHARS, h]

theorem limit_absent (s : JSString) (hl : 1000 < s.length) (h : 46 ∉ s.take 1000) :
    limitSummaryLength s = s.take 1000 ++ lit "..." := by
  have hn : ¬ s.length ≤ 1000 := by omega
  simp [limitSummaryLength, MAX_CHARS, hn, substring0, lastIndexOf, period,
    lastIndexOfFrom_absent 46 (s.take 1000) 0 h]

theorem limit_split (s a b : JSString) (hl : 1000 < s.length)
    (hs : s.take 1000 = a ++ 46 :: b) (hb : 46 ∉ b) :
    limitSummaryLength s
      = if 700 < a.length then s.take (a.length + 1) else s.take 1000 ++ lit "..." := by
  have hn : ¬ s.length ≤ 1000 := by omega
  have hlen : a.length + 1 ≤ 1000 := by
    have := congrArg List.length hs
    simp at this
    omega
  have hidx : lastIndexOf (s.take 1000) 46 = ((a.length : Nat) : Int) := by
    rw [hs, lastIndexOf, lastIndexOfFrom_split 46 a b 0 hb]
    simp
  simp only [limitSummaryLength, MAX_CHARS, hn, if_false, substring0, period, hidx]
  by_cases h7 : 700 < a.length
  · have h7i : 10 * ((a.length : Nat) : Int) > 7 * ((1000 : Nat) : Int) := by omega
    have ht : (((a.length : Nat) : Int) + 1).toNat = a.length + 1 := by omega
    rw [if_pos h7i, if_pos h7, ht, List.take_take, Nat.min_eq_left hlen]
  · have h7i : ¬ 10 * ((a.length : Nat) : Int) > 7 * ((1000 : Nat) : Int) := by omega
    rw [if_neg h7i, if_neg h7]

theorem getElem?_of_take_split (s a b : JSString) (c : Nat) (hs : s.take 1000 = a ++ c :: b)
    (j : Nat) (hj : j < 1000) : s[j]? = (a ++ c :: b)[j]? := by
  rw [← hs, List.getElem?_take_of_lt hj]

theorem lastPeriodRef_absent (s : JSString) (h : 46 ∉ s.take 1000) : lastPeriodRef s = none := by
  apply findLast_none
  intro j hj
  have : s[j]? ≠ some 46 := by
    intro e
    apply h
    have e2 : (s.take 1000)[j]? = some 46 := by rw [List.getElem?_take_of_lt hj]; exact e
    exact List.getElem?_mem e2
  simpa using this

theorem lastPeriodRef_split (s a b : JSString) (hs : s.take 1000 = a ++ 46 :: b) (hb : 46 ∉ b) :
    lastPeriodRef s = some a.length := by
  have hlen : a.length + 1 + b.length ≤ 1000 := by
    have h1 := congrArg List.length hs
    have h2 : (s.take 1000).length ≤ 1000 := by simp
    simp at h1
    omega
  apply findLast_some
  · omega
  · rw [getElem?_of_take_split s a b 46 hs a.length (by omega)]
    simp [List.getElem?_append_right (Nat.le_refl a.length)]
  · intro j h1 h2
    have : s[j]? ≠ some 46 := by
      rw [getElem?_of_take_split s a b 46 hs j h2]
      intro e
      apply hb
      have hge : a.length ≤ j := by omega
      rw [List.getElem?_append_right hge] at e
      obtain ⟨k, hk⟩ : ∃ k, j - a.length = k + 1 := ⟨j - a.length - 1, by omega⟩
      rw [hk, List.getElem?_cons_succ] at e
      exact List.getElem?_mem e
    simpa using this

/-! ## The length limiter: idempotence and agreement with the reference -/

theorem limit_eq_ref (s : JSString) : limitSummaryLength s = limitSummaryLengthRef s := by
  by_cases hl : s.length ≤ 1000
  · rw [limit_short s hl]
    simp [limitSummaryLengthRef, hl]
  · have hgt : 1000 < s.length := by omega
    by_cases hm : 46 ∈ s.take 1000
    · obtain ⟨a, b, hab, hb⟩ := last_occurrence_split 46 (s.take 1000) hm
      rw [limit_split s a b hgt hab hb]
      simp only [limitSummaryLengthRef, hl, if_false, lastPeriodRef_split s a b hab hb]
    · rw [limit_absent s hgt hm]
      simp [limitSummaryLengthRef, hl, lastPeriodRef_absent s hm]

theorem limit_idem (s : JSString) :
    limitSummaryLength (limitSummaryLength s) = limitSummaryLength s := by
  have h3 : (lit "...").length = 3 := by decide
  by_cases hl : s.length ≤ 1000
  · rw [limit_short s hl, limit_short s hl]
  · have hgt : 1000 < s.length := by omega
    have htl : (s.take 1000).length = 1000 := by simp; omega
    have hlong : 1000 < (s.take 1000 ++ lit "...").length := by
      rw [List.length_append, htl, h3]; omega
    have htake : (s.take 1000 ++ lit "...").take 1000 = s.take 1000 := by
      rw [List.take_append_of_le_length (by omega), List.take_take]
      simp
    by_cases hm : 46 ∈ s.take 1000
    · obtain ⟨a, b, hab, hb⟩ := last_occurrence_split 46 (s.take 1000) hm
      rw [limit_split s a b hgt hab hb]
      by_cases h7 : 700 < a.length
      · rw [if_pos h7]
        apply limit_short
        have := congrArg List.length hab
        simp at this
        simp
        omega
      · rw [if_neg h7, limit_split _ a b hlong (htake.trans hab) hb, if_neg h7, htake]
    · rw [limit_absent s hgt hm]
      rw [limit_absent _ hlong (by rw [htake]; exact hm), htake]

theorem limit_length_le (s : JSString) : (limitSummaryLength s).length ≤ 1003 := by
  have h3 : (lit "...").length = 3 := by decide
  by_cases hl : s.length ≤ 1000
  · rw [limit_short s hl]; omega
  · have hgt : 1000 < s.length := by omega
    have htl : (s.take 1000).length = 1000 := by simp; omega
    by_cases hm : 46 ∈ s.take 1000
    · obtain ⟨a, b, hab, hb⟩ := last_occurrence_split 46 (s.take 1000) hm
      rw [limit_split s a b hgt hab hb]
      have := congrArg List.length hab
      simp at this
      split
      · simp; omega
      · rw [List.length_append, htl, h3]
    · rw [limit_absent s hgt hm, List.length_append, htl, h3]

theorem replicate_take_1000 (c n : Nat) (h : 1000 ≤ n) :
    (List.replicate n c).take 1000 = List.replicate 1000 c := by
  rw [List.take_replicate, Nat.min_eq_left h]

/-- C2. `limitSummaryLength` is idempotent on every string; the hard-truncation branch is
among the cases: 1001 letters are cut to 1000 letters plus `...`, and limiting that
1003-unit result once more returns it unchanged. -/
theorem limitSummaryLength_idempotent :
    (∀ s : JSString, limitSummaryLength (limitSummaryLength s) = limitSummaryLength s) ∧
    limitSummaryLength (List.replicate 1001 97) = List.replicate 1000 97 ++ lit "..." ∧
    limitSummaryLength (List.replicate 1000 97 ++ lit "...")
      = List.replicate 1000 97 ++ lit "..." := by
  have hcut : limitSummaryLength (List.replicate 1001 97)
      = List.replicate 1000 97 ++ lit "..." := by
    have hno : 46 ∉ (List.replicate 1001 97).take 1000 := by
      rw [replicate_take_1000 97 1001 (by omega)]
      intro h
      have := (List.mem_replicate.mp h).2
      omega
    rw [limit_absent _ (by rw [List.length_replicate]; omega) hno,
      replicate_take_1000 97 1001 (by omega)]
  refine ⟨limit_idem, hcut, ?_⟩
  rw [← hcut]
  exact limit_idem _

/-- C3. `limitSummaryLength` agrees with the reference definition on every string; a
1050-unit input whose only period is at offset 800 yields its 801-unit prefix, and one
whose only period is at offset 300 yields its 1000-unit prefix followed by `...`. -/
theorem limitSummaryLength_refines_reference :
    (∀ s : JSString, limitSummaryLength s = limitSummaryLengthRef s) ∧
    (∀ s : JSString, s.length = 1050 → (∀ i, s[i]? = some 46 ↔ i = 800) →
      limitSummaryLength s = s.take 801) ∧
    (∀ s : JSString, s.length = 1050 → (∀ i, s[i]? = some 46 ↔ i = 300) →
      limitSummaryLength s = s.take 1000 ++ lit "...") := by
  refine ⟨limit_eq_ref, ?_, ?_⟩
  · intro s hl hp
    have hr : lastPeriodRef s = some 800 := by
      apply findLast_some
      · omega
      · simpa using (hp 800).2 rfl
      · intro j h1 _
        have : ¬ s[j]? = some 46 := fun e => by have := (hp j).1 e; omega
        simpa using this
    rw [limit_eq_ref]
    simp [limitSummaryLengthRef, hl, hr]
  · intro s hl hp
    have hr : lastPeriodRef s = some 300 := by
      apply findLast_some
      · omega
      · simpa using (hp 300).2 rfl
      · intro j h1 _
        have : ¬ s[j]? = some 46 := fun e => by have := (hp j).1 e; omega
        simpa using this
    rw [limit_eq_ref]
    simp [limitSummaryLengthRef, hl, hr]

theorem length_letters_period (n m : Nat) :
    (List.replicate n 97 ++ [46] ++ List.replicate m 97).length = n + 1 + m := by
  rw [List.length_append, List.length_append, List.length_replicate, List.length_replicate]
  rfl

theorem only_period_at (n m : Nat) (i : Nat) :
    (List.replicate n 97 ++ [46] ++ List.replicate m 97)[i]? = some 46 ↔ i = n := by
  rcases Nat.lt_trichotomy i n with h | h | h
  · rw [List.append_assoc, List.getElem?_append_left (by simpa using h)]
    simp [List.getElem?_replicate, h]
    omega
  · subst h
    rw [List.append_assoc, List.getElem?_append_right (by simp)]
    simp
  · rw [List.getElem?_append_right (by simp; omega)]
    simp [List.getElem?_replicate]
    omega

/-- Witness for C3: the two boundary inputs of the specification, built from 1049 letters
`a` and one period. -/
theorem limitSummaryLength_refines_reference_witness :
    limitSummaryLength (List.replicate 800 97 ++ [46] ++ List.replicate 249 97)
      = (List.replicate 800 97 ++ [46] ++ List.replicate 249 97).take 801 ∧
    limitSummaryLength (List.replicate 300 97 ++ [46] ++ List.replicate 749 97)
      = (List.replicate 300 97 ++ [46] ++ List.replicate 749 97).take 1000 ++ lit "..." :=
  ⟨limitSummaryLength_refines_reference.2.1 _ (length_letters_period 800 249)
     (only_period_at 800 249),
   limitSummaryLength_refines_reference.2.2 _ (length_letters_period 300 749)
     (only_period_at 300 749)⟩

/-! ## Basic summary -/

theorem replaceFirst_prefix (pat rest : JSString) (h : pat ≠ []) :
    replaceFirst pat [] (pat ++ rest) = rest := by
  cases pat with
  | nil => exact absurd rfl h
  | cons p ps =>
    simp [replaceFirst]

theorem splitHead_label (L rest : JSString) (hL : 46 ∉ L) :
    splitHead 46 (L ++ 46 :: rest) = L := by
  induction L with
  | nil => simp [splitHead]
  | cons x L ih =>
    have hx : x ≠ 46 := fun e => hL (by simp [e])
    have hL2 : 46 ∉ L := fun hm => hL (List.mem_cons_of_mem _ hm)
    have := ih hL2
    simp only [splitHead] at this ⊢
    simp [List.takeWhile_cons, hx, this]

theorem generateBasicSummary_ok (w : World) (url title : JSString) (u : URLRecord)
    (h : w.parseURL url = some u) :
    generateBasicSummary w url title
      = ⟨[], .ok (lit "Bookmark from " ++ splitHead 46 (replaceFirst (lit "www.") [] u.hostname)
          ++ lit ": \"" ++ orElseStr title url
          ++ lit "\". Access this link to view the full content.")⟩ := by
  simp [generateBasicSummary, newURL, h, bind, pure, Eff.andThen, Eff.ret, period]

theorem generateBasicSummary_throws (w : World) (url title : JSString)
    (h : w.parseURL url = none) :
    generateBasicSummary w url title = ⟨[], .error .typeError⟩ := by
  simp [generateBasicSummary, newURL, h, bind, Eff.andThen, Eff.throw]

theorem generateBasicSummary_calls (w : World) (url title : JSString) :
    (generateBasicSummary w url title).calls = [] := by
  cases h : w.parseURL url with
  | none => rw [generateBasicSummary_throws w url title h]
  | some u => rw [generateBasicSummary_ok w url title u h]

theorem generateSummary_no_key (w : World) (url title : JSString)
    (hkey : w.JINA_API_KEY = none ∨ w.JINA_API_KEY = some []) :
    generateSummary w url title
      = Eff.tryCatch (generateBasicSummary w (ensureProtocol url) title)
          (fun _ => Eff.ret (lit "Bookmark saved: " ++ orElseStr title (ensureProtocol url))) := by
  rcases hkey with h | h <;> simp [generateSummary, h]

theorem generateSummary_no_key_calls (w : World) (url title : JSString)
    (hkey : w.JINA_API_KEY = none ∨ w.JINA_API_KEY = some []) :
    (generateSummary w url title).calls = [] := by
  rw [generateSummary_no_key w url title hkey]
  cases h : w.parseURL (ensureProtocol url) with
  | none =>
    rw [generateBasicSummary_throws w _ title h]
    rfl
  | some u =>
    rw [generateBasicSummary_ok w _ title u h]
    rfl

theorem generateSummary_no_key_www (w : World) (url title proto L suffix : JSString)
    (hkey : w.JINA_API_KEY = none ∨ w.JINA_API_KEY = some [])
    (hp : w.parseURL (ensureProtocol url) = some ⟨proto, lit "www." ++ L ++ 46 :: suffix⟩)
    (hL : 46 ∉ L) (ht : title ≠ []) :
    generateSummary w url title
      = ⟨[], .ok (lit "Bookmark from " ++ L ++ lit ": \"" ++ title
          ++ lit "\". Access this link to view the full content.")⟩ := by
  rw [generateSummary_no_key w url title hkey, generateBasicSummary_ok w _ title _ hp]
  have h1 : replaceFirst (lit "www.") [] (lit "www." ++ L ++ 46 :: suffix)
      = L ++ 46 :: suffix := by
    rw [List.append_assoc]
    exact replaceFirst_prefix _ _ (by decide)
  simp only [h1, splitHead_label L suffix hL, orElseStr, ht, ne_eq, not_false_eq_true, if_true]
  rfl

/-- C4 as stated fails: the host of `ftp://www.example.com/page` is `www.` + `example` +
`.com`, yet the URL lacks the `http://` / `https://` prefix, is prefixed with `https://`,
and the label shown is `ftp`. -/
theorem generateSummary_label_of_prefixed_url :
    ftpWorld.JINA_API_KEY = none ∧
    ftpWorld.parseURL (lit "ftp://www.example.com/page")
      = some ⟨lit "ftp:", lit "www." ++ lit "example" ++ 46 :: lit "com"⟩ ∧
    generateSummary ftpWorld (lit "ftp://www.example.com/page") (lit "Example Title")
      = ⟨[], .ok (lit
          "Bookmark from ftp: \"Example Title\". Access this link to view the full content.")⟩ ∧
    lit "Bookmark from ftp: \"Example Title\". Access this link to view the full content."
      ≠ lit "Bookmark from example: \"Example Title\". Access this link to view the full content." := by
  refine ⟨rfl, by decide, ?_, by decide⟩
  rw [generateSummary_no_key ftpWorld _ _ (Or.inl rfl),
    generateBasicSummary_ok ftpWorld _ _ ⟨lit "https:", lit "ftp"⟩ (by decide)]
  exact congrArg (fun s => (⟨[], .ok s⟩ : Eff JSString)) (by decide)

/-- C4 amended. Without a credential (`JINA_API_KEY` unset or empty) `generateSummary`
issues no external call at all. For a non-empty title `t` it returns
`Bookmark from L: "t". Access this link to view the full content.` whenever the URL starts
with `http://` or `https://` and its host is `www.` + dot-free label `L` + `.` + suffix,
and whenever the URL has no such prefix and the host of `https://` + URL has that shape. -/
theorem generateSummary_without_credential (w : World)
    (hkey : w.JINA_API_KEY = none ∨ w.JINA_API_KEY = some []) :
    (∀ url title : JSString, (generateSummary w url title).calls = []) ∧
    (∀ (url title proto L suffix : JSString),
      (startsWith url (lit "http://") = true ∨ startsWith url (lit "https://") = true) →
      w.parseURL url = some ⟨proto, lit "www." ++ L ++ 46 :: suffix⟩ →
      46 ∉ L → title ≠ [] →
      generateSummary w url title
        = ⟨[], .ok (lit "Bookmark from " ++ L ++ lit ": \"" ++ title
            ++ lit "\". Access this link to view the full content.")⟩) ∧
    (∀ (url title proto L suffix : JSString),
      startsWith url (lit "http://") = false → startsWith url (lit "https://") = false →
      w.parseURL (lit "https://" ++ url) = some ⟨proto, lit "www." ++ L ++ 46 :: suffix⟩ →
      46 ∉ L → title ≠ [] →
      generateSummary w url title
        = ⟨[], .ok (lit "Bookmark from " ++ L ++ lit ": \"" ++ title
            ++ lit "\". Access this link to view the full content.")⟩) := by
  refine ⟨fun url title => generateSummary_no_key_calls w url title hkey, ?_, ?_⟩
  · intro url title proto L suffix hs hp hL ht
    have hn : ensureProtocol url = url := by
      unfold ensureProtocol
      rcases hs with h | h <;> simp [h]
    exact generateSummary_no_key_www w url title proto L suffix hkey (by rw [hn]; exact hp) hL ht
  · intro url title proto L suffix h1 h2 hp hL ht
    have hn : ensureProtocol url = lit "https://" ++ url := by
      unfold ensureProtocol
      simp [h1, h2]
    exact generateSummary_no_key_www w url title proto L suffix hkey (by rw [hn]; exact hp) hL ht

/-- Witness for C4 amended: the example of the specification, and the same page submitted
without a scheme. -/
theorem generateSummary_without_credential_witness :
    generateSummary offlineWorld (lit "https://www.example.com/page") (lit "Example Title")
      = ⟨[], .ok (lit
          "Bookmark from example: \"Example Title\". Access this link to view the full content.")⟩ ∧
    generateSummary offlineWorld (lit "www.example.com/page") (lit "Example Title")
      = ⟨[], .ok (lit
          "Bookmark from example: \"Example Title\". Access this link to view the full content.")⟩ :=
  ⟨(generateSummary_without_credential offlineWorld (Or.inl rfl)).2.1
      (lit "https://www.example.com/page") (lit "Example Title") (lit "https:") (lit "example")
      (lit "com") (Or.inr (by decide)) (by decide) (by decide) (by decide),
   (generateSummary_without_credential offlineWorld (Or.inl rfl)).2.2
      (lit "www.example.com/page") (lit "Example Title") (lit "https:") (lit "example")
      (lit "com") (by decide) (by decide) (by decide) (by decide) (by decide)⟩

/-- C5, the code at the failing input: for host `awww.example.com`, where `www.` is not a
prefix, the label after `Bookmark from ` is `aexample`; the inner `www.` was removed,
and the characters before the first `.` of the host, `awww`, are not what is shown. -/
theorem generateBasicSummary_removes_inner_www :
    startsWith (lit "awww.example.com") (lit "www.") = false ∧
    splitHead 46 (lit "awww.example.com") = lit "awww" ∧
    generateBasicSummary offlineWorld (lit "https://awww.example.com/") (lit "T")
      = ⟨[], .ok (lit
          "Bookmark from aexample: \"T\". Access this link to view the full content.")⟩ := by
  refine ⟨by decide, by decide, ?_⟩
  rw [generateBasicSummary_ok offlineWorld _ _ ⟨lit "https:", lit "awww.example.com"⟩ (by decide)]
  exact congrArg (fun s => (⟨[], .ok s⟩ : Eff JSString)) (by decide)

/-! ## Metadata extraction -/

theorem extract_fetch_fails (w : World) (u : JSString)
    (hf : w.fetchText (ensureProtocol u) = none) :
    extractWebsiteInfo w u
      = ⟨[.fetch (ensureProtocol u)], .ok { title := ensureProtocol u, favicon := [] }⟩ := by
  simp [extractWebsiteInfo, fetchHtml, hf, bind, Eff.andThen, Eff.tryCatch, Eff.ret]

theorem extract_parse_fails (w : World) (u html : JSString)
    (hf : w.fetchText (ensureProtocol u) = some html)
    (hp : w.parseURL (ensureProtocol u) = none) :
    extractWebsiteInfo w u
      = ⟨[.fetch (ensureProtocol u)], .ok { title := ensureProtocol u, favicon := [] }⟩ := by
  simp [extractWebsiteInfo, fetchHtml, newURL, hf, hp, bind, Eff.andThen, Eff.tryCatch, Eff.ret,
    Eff.throw]

theorem extract_page (w : World) (u html : JSString) (urlObj : URLRecord)
    (hf : w.fetchText (ensureProtocol u) = some html)
    (hp : w.parseURL (ensureProtocol u) = some urlObj) :
    extractWebsiteInfo w u
      = ⟨[.fetch (ensureProtocol u)], .ok
          { title := match truthyGroup1 (titleRe.exec html) with
              | some g => trim g
              | none => []
            favicon := match truthyGroup1 (faviconRe.exec html) with
              | some faviconUrl => resolveFavicon urlObj faviconUrl
              | none => urlObj.protocol ++ lit "//" ++ urlObj.hostname ++ lit "/favicon.ico" }⟩ := by
  simp [extractWebsiteInfo, fetchHtml, newURL, hf, hp, bind, pure, Eff.andThen, Eff.tryCatch,
    Eff.ret]

theorem extract_never_throws (w : World) (u : JSString) :
    ∃ info, extractWebsiteInfo w u = ⟨[.fetch (ensureProtocol u)], .ok info⟩ := by
  cases hf : w.fetchText (ensureProtocol u) with
  | none => exact ⟨_, extract_fetch_fails w u hf⟩
  | some html =>
    cases hp : w.parseURL (ensureProtocol u) with
    | none => exact ⟨_, extract_parse_fails w u html hf hp⟩
    | some urlObj => exact ⟨_, extract_page w u html urlObj hf hp⟩

/-- C6 as stated fails: for `example.com` with the network down the returned title is
`https://example.com`, not the string the caller passed. -/
theorem extractWebsiteInfo_title_not_original :
    offlineWorld.fetchText (ensureProtocol (lit "example.com")) = none ∧
    (extractWebsiteInfo offlineWorld (lit "example.com")).out
      = .ok { title := lit "https://example.com", favicon := [] } ∧
    ¬ (∀ (w : World) (u : JSString), w.fetchText (ensureProtocol u) = none →
        (extractWebsiteInfo w u).out = .ok { title := u, favicon := [] }) := by
  have h : (extractWebsiteInfo offlineWorld (lit "example.com")).out
      = .ok { title := lit "https://example.com", favicon := [] } := by
    rw [extract_fetch_fails offlineWorld _ rfl]
    exact congrArg (fun s => (.ok { title := s, favicon := [] } : Except JSError WebsiteInfo))
      (by decide)
  refine ⟨rfl, h, fun hall => ?_⟩
  have h2 := hall offlineWorld (lit "example.com") rfl
  rw [h] at h2
  have h3 : lit "https://example.com" = lit "example.com" := by
    injection h2 with h2
    exact congrArg WebsiteInfo.title h2
  exact absurd h3 (by decide)

/-- C6 amended. `extractWebsiteInfo` never throws, and when the page fetch or the URL
parse fails it returns the scheme-normalised URL as title with an empty favicon: `u`
itself when `u` starts with `http://` or `https://`, and `https://` + `u` otherwise. -/
theorem extractWebsiteInfo_failure_default :
    (∀ (w : World) (u : JSString), ∃ info, (extractWebsiteInfo w u).out = .ok info) ∧
    (∀ (w : World) (u : JSString),
      (w.fetchText (ensureProtocol u) = none ∨ w.parseURL (ensureProtocol u) = none) →
      (extractWebsiteInfo w u).out
        = .ok { title := if startsWith u (lit "http://") || startsWith u (lit "https://")
                  then u else lit "https://" ++ u,
                favicon := [] }) := by
  constructor
  · intro w u
    obtain ⟨info, h⟩ := extract_never_throws w u
    exact ⟨info, by rw [h]⟩
  · intro w u hfail
    have hn : ensureProtocol u
        = if startsWith u (lit "http://") || startsWith u (lit "https://") then u
          else lit "https://" ++ u := by
      unfold ensureProtocol
      cases startsWith u (lit "http://") <;> cases startsWith u (lit "https://") <;> rfl
    rw [← hn]
    cases hf : w.fetchText (ensureProtocol u) with
    | none => rw [extract_fetch_fails w u hf]
    | some html =>
      rcases hfail with h | h
      · rw [hf] at h; cases h
      · rw [extract_parse_fails w u html hf h]

/-- Witness for C6 amended: `example.com` and `http://example.com` with the network down. -/
theorem extractWebsiteInfo_failure_default_witness :
    (extractWebsiteInfo offlineWorld (lit "example.com")).out
      = .ok { title := lit "https://" ++ lit "example.com", favicon := [] } ∧
    (extractWebsiteInfo offlineWorld (lit "http://example.com")).out
      = .ok { title := lit "http://example.com", favicon := [] } :=
  ⟨extractWebsiteInfo_failure_default.2 offlineWorld (lit "example.com") (Or.inl rfl),
   extractWebsiteInfo_failure_default.2 offlineWorld (lit "http://example.com") (Or.inl rfl)⟩

/-! ## The matcher: what reaches the continuation -/

theorem starRun_some {α : Type} (neg : Bool) (set s : JSString) (k : JSString → Option α)
    (res : α) (h : starRun neg set s k = some res) :
    ∃ rest, rest.length ≤ s.length ∧ k rest = some res := by
  induction s with
  | nil => exact ⟨[], Nat.le_refl _, h⟩
  | cons x xs ih =>
    unfold starRun at h
    split at h
    · split at h
      · next r hr =>
        injection h with h
        subst h
        obtain ⟨rest, hl, hk⟩ := ih hr
        exact ⟨rest, by simp; omega, hk⟩
      · exact ⟨x :: xs, Nat.le_refl _, h⟩
    · exact ⟨x :: xs, Nat.le_refl _, h⟩

theorem run_groupFree {α : Type} (r : Re) (hr : r.groupFree = true) (s : JSString)
    (cap : Option JSString) (k : JSString → Option JSString → Option α) (res : α)
    (h : r.run s cap k = some res) : ∃ rest, k rest cap = some res := by
  induction r generalizing s cap k with
  | lits cs =>
    simp only [Re.run] at h
    split at h
    · exact ⟨_, h⟩
    · cases h
  | cls neg set =>
    simp only [Re.run] at h
    split at h
    · split at h
      · exact ⟨_, h⟩
      · cases h
    · cases h
  | star neg set =>
    simp only [Re.run] at h
    obtain ⟨rest, _, hk⟩ := starRun_some neg set s _ res h
    exact ⟨rest, hk⟩
  | plus neg set =>
    simp only [Re.run] at h
    split at h
    · split at h
      · obtain ⟨rest, _, hk⟩ := starRun_some neg set _ _ res h
        exact ⟨rest, hk⟩
      · cases h
    · cases h
  | opt r ih =>
    simp only [Re.run] at h
    split at h
    · next r1 hr1 =>
      cases h
      exact ih (by simpa [Re.groupFree] using hr) s cap k hr1
    · exact ⟨s, h⟩
  | group r _ => simp [Re.groupFree] at hr
  | seq a b iha ihb =>
    simp only [Re.groupFree, Bool.and_eq_true] at hr
    simp only [Re.run] at h
    obtain ⟨rest, h1⟩ := iha hr.1 s cap _ h
    exact ihb hr.2 rest cap k h1

theorem run_group_plus {α : Type} (neg : Bool) (set s : JSString) (cap : Option JSString)
    (k : JSString → Option JSString → Option α) (res : α)
    (h : (Re.group (.plus neg set)).run s cap k = some res) :
    ∃ rest g, g ≠ [] ∧ k rest (some g) = some res := by
  simp only [Re.run] at h
  split at h
  · next x xs =>
    split at h
    · obtain ⟨rest, hl, hk⟩ := starRun_some neg set xs _ res h
      refine ⟨rest, _, ?_, hk⟩
      intro he
      have := congrArg List.length he
      simp at this
      omega
    · cases h
  · cases h

theorem seq_groupFree {α : Type} {a b : Re} {s : JSString}
    {cap : Option JSString} {k : JSString → Option JSString → Option α} {res : α}
    (h : (Re.seq a b).run s cap k = some res) (ha : a.groupFree = true) :
    ∃ rest, b.run rest cap k = some res := by
  simp only [Re.run] at h
  exact run_groupFree a ha s cap _ res h

theorem faviconRe_run_capture (s : JSString) (cap : Option JSString)
    (h : faviconRe.run s none (fun _ c => some c) = some cap) :
    ∃ g, g ≠ [] ∧ cap = some g := by
  unfold faviconRe at h
  simp only [Re.cat] at h
  obtain ⟨_, h⟩ := seq_groupFree h rfl
  obtain ⟨_, h⟩ := seq_groupFree h rfl
  obtain ⟨_, h⟩ := seq_groupFree h rfl
  obtain ⟨_, h⟩ := seq_groupFree h rfl
  obtain ⟨_, h⟩ := seq_groupFree h rfl
  obtain ⟨_, h⟩ := seq_groupFree h rfl
  obtain ⟨_, h⟩ := seq_groupFree h rfl
  obtain ⟨_, h⟩ := seq_groupFree h rfl
  obtain ⟨_, h⟩ := seq_groupFree h rfl
  obtain ⟨_, h⟩ := seq_groupFree h rfl
  simp only [Re.run] at h
  obtain ⟨rest, g, hg, h⟩ := run_group_plus true quotes _ none
    (fun rest cap1 => (Re.seq (.cls false quotes)
      (.seq (.star true (lit ">")) (.lits (lit ">")))).run rest cap1 (fun _ c => some c)) cap h
  obtain ⟨_, h⟩ := seq_groupFree h rfl
  obtain ⟨_, h⟩ := seq_groupFree h rfl
  obtain ⟨_, h⟩ := run_groupFree (.lits (lit ">")) rfl _ _ _ _ h
  cases h
  exact ⟨g, hg, rfl⟩

theorem faviconRe_exec_capture (html : JSString) (cap : Option JSString)
    (h : faviconRe.exec html = some cap) : ∃ g, g ≠ [] ∧ cap = some g := by
  induction html with
  | nil => exact faviconRe_run_capture [] cap h
  | cons x xs ih =>
    unfold Re.exec at h
    split at h
    · next c hc =>
      cases h
      exact faviconRe_run_capture _ _ hc
    · exact ih h
theorem resolveFavicon_cases (S H r : JSString) :
    resolveFavicon ⟨S, H⟩ r
      = if startsWith r (lit "/") then S ++ lit "//" ++ H ++ r
        else if startsWith r (lit "http") then r
        else S ++ lit "//" ++ H ++ lit "/" ++ r := by
  unfold resolveFavicon
  cases startsWith r (lit "/") <;> cases startsWith r (lit "http") <;> rfl

/-! ## The favicon pattern on an icon link tag -/

theorem canon_eq_gt (c : Nat) : canon c = 62 ↔ c = 62 := by
  unfold canon
  split <;> omega

theorem inClass_not_gt (c : Nat) (h : c ≠ 62) : inClass true (lit ">") c = true := by
  have h1 : canon c ≠ 62 := fun e => h ((canon_eq_gt c).mp e)
  have h2 : (lit ">").map canon = [62] := by decide
  simp only [inClass, h2]
  simp [h1]

theorem inClass_gt : inClass true (lit ">") 62 = false := by decide

theorem canon_quote (c : Nat) : canon c ∈ quotes ↔ c ∈ quotes := by
  unfold canon quotes
  split
  · simp
    omega
  · simp

theorem inClass_quote (q : Nat) (h : q ∈ quotes) : inClass false quotes q = true := by
  have h2 : quotes.map canon = quotes := by decide
  have h1 : canon q ∈ quotes := (canon_quote q).mpr h
  simp only [inClass, h2]
  simp [h1]

theorem inClass_not_quote (c : Nat) (h : c ∉ quotes) : inClass true quotes c = true := by
  have h2 : quotes.map canon = quotes := by decide
  have h1 : canon c ∉ quotes := fun e => h ((canon_quote c).mp e)
  simp only [inClass, h2]
  simp [h1]

theorem inClass_quote_neg (q : Nat) (h : q ∈ quotes) : inClass true quotes q = false := by
  have h2 : quotes.map canon = quotes := by decide
  have h1 : canon q ∈ quotes := (canon_quote q).mpr h
  simp only [inClass, h2]
  simp [h1]

theorem stripLits_of_ci (cs p s : JSString) (h : p.map canon = cs.map canon) :
    stripLits cs (p ++ s) = some s := by
  induction cs generalizing p with
  | nil =>
    cases p with
    | nil => rfl
    | cons x xs => simp at h
  | cons c cs ih =>
    cases p with
    | nil => simp at h
    | cons x xs =>
      simp only [List.map_cons, List.cons.injEq] at h
      simp only [List.cons_append, stripLits, h.1, if_true]
      exact ih xs h.2

theorem stripLits_none_of_not_starts (cs s : JSString) (h : startsCI cs s = false) :
    stripLits cs s = none := by
  induction cs generalizing s with
  | nil => simp [startsCI] at h
  | cons c cs ih =>
    cases s with
    | nil => rfl
    | cons x xs =>
      simp only [stripLits]
      split
      · next hc =>
        apply ih
        simp only [startsCI, List.map_cons, List.isPrefixOf, hc, beq_self_eq_true,
          Bool.true_and] at h
        exact h
      · rfl

theorem stripLits_none_before_sep (cs t z : JSString) (sep : Nat)
    (h : startsCI cs t = false) (hsep : canon sep ∉ cs.map canon) :
    stripLits cs (t ++ sep :: z) = none := by
  induction cs generalizing t with
  | nil => simp [startsCI] at h
  | cons c cs ih =>
    cases t with
    | nil =>
      have : ¬ canon sep = canon c := fun e => hsep (by simp [e])
      simp [stripLits, this]
    | cons x xs =>
      simp only [List.cons_append, stripLits]
      split
      · next hc =>
        apply ih
        · simp only [startsCI, List.map_cons, List.isPrefixOf, hc, beq_self_eq_true,
            Bool.true_and] at h
          exact h
        · exact fun hm => hsep (List.mem_cons_of_mem _ hm)
      · rfl

theorem not_starts_of_not_occurs (pat s1 s2 : JSString) (h : occursCI pat (s1 ++ s2) = false) :
    startsCI pat s2 = false := by
  induction s1 with
  | nil =>
    cases s2 with
    | nil => simpa [occursCI] using h
    | cons x xs =>
      simp only [List.nil_append, occursCI, Bool.or_eq_false_iff] at h
      exact h.1
  | cons x xs ih =>
    simp only [List.cons_append, occursCI, Bool.or_eq_false_iff] at h
    exact ih h.2

theorem starRun_skip {α : Type} (neg : Bool) (set u w : JSString) (k : JSString → Option α)
    (res : α) (hu : ∀ c ∈ u, inClass neg set c = true)
    (h : starRun neg set w k = some res) : starRun neg set (u ++ w) k = some res := by
  induction u with
  | nil => exact h
  | cons c u ih =>
    have hc : inClass neg set c = true := hu c (by simp)
    have := ih (fun d hd => hu d (List.mem_cons_of_mem _ hd))
    simp only [List.cons_append, starRun, hc, if_true, List.append_eq, this]

theorem starRun_here {α : Type} (neg : Bool) (set x y : JSString) (k : JSString → Option α)
    (hx : ∀ c ∈ x, inClass neg set c = true)
    (hy : ∀ c z, y = c :: z → inClass neg set c = false)
    (hk : ∀ x1 x2, x = x1 ++ x2 → x1 ≠ [] → k (x2 ++ y) = none) :
    starRun neg set (x ++ y) k = k (x ++ y) := by
  induction x with
  | nil =>
    cases y with
    | nil => rfl
    | cons c z => simp [starRun, hy c z rfl]
  | cons c x ih =>
    have hc : inClass neg set c = true := hx c (by simp)
    have h1 := ih (fun d hd => hx d (List.mem_cons_of_mem _ hd))
      (fun x1 x2 he hne => hk (c :: x1) x2 (by simp [he]) (by simp))
    have h2 : k (x ++ y) = none := hk [c] x rfl (by simp)
    simp only [List.cons_append, starRun, hc, if_true, List.append_eq, h1, h2]

theorem starRun_last {α : Type} (neg : Bool) (set u x y : JSString) (k : JSString → Option α)
    (res : α) (hu : ∀ c ∈ u, inClass neg set c = true)
    (hx : ∀ c ∈ x, inClass neg set c = true)
    (hy : ∀ c z, y = c :: z → inClass neg set c = false)
    (hk : ∀ x1 x2, x = x1 ++ x2 → x1 ≠ [] → k (x2 ++ y) = none)
    (h : k (x ++ y) = some res) : starRun neg set (u ++ (x ++ y)) k = some res :=
  starRun_skip neg set u _ k res hu (by rw [starRun_here neg set x y k hx hy hk]; exact h)

theorem run_cat_lits {α : Type} (cs p s : JSString) (r : Re) (rs : List Re)
    (cap : Option JSString) (k : JSString → Option JSString → Option α)
    (h : p.map canon = cs.map canon) :
    (Re.cat (.lits cs :: r :: rs)).run (p ++ s) cap k = (Re.cat (r :: rs)).run s cap k := by
  simp only [Re.cat, Re.run, stripLits_of_ci cs p s h]

theorem run_cat_lits_none {α : Type} (cs s : JSString) (r : Re) (rs : List Re)
    (cap : Option JSString) (k : JSString → Option JSString → Option α)
    (h : stripLits cs s = none) :
    (Re.cat (.lits cs :: r :: rs)).run s cap k = none := by
  simp only [Re.cat, Re.run, h]

theorem run_cat_cls {α : Type} (neg : Bool) (set s : JSString) (x : Nat) (r : Re)
    (rs : List Re) (cap : Option JSString) (k : JSString → Option JSString → Option α)
    (h : inClass neg set x = true) :
    (Re.cat (.cls neg set :: r :: rs)).run (x :: s) cap k = (Re.cat (r :: rs)).run s cap k := by
  simp only [Re.cat, Re.run, h, if_true]

theorem run_cat_star {α : Type} (neg : Bool) (set s : JSString) (r : Re)
    (rs : List Re) (cap : Option JSString) (k : JSString → Option JSString → Option α) :
    (Re.cat (.star neg set :: r :: rs)).run s cap k
      = starRun neg set s (fun rest => (Re.cat (r :: rs)).run rest cap k) := by
  simp only [Re.cat, Re.run]

theorem no_later_start (pat part x1 x2 post : JSString)
    (hocc : occursCI pat part.tail = false) (he : part = x1 ++ x2) (hne : x1 ≠ [])
    (hsep : canon 62 ∉ pat.map canon) :
    stripLits pat (x2 ++ 62 :: post) = none := by
  cases x1 with
  | nil => exact absurd rfl hne
  | cons c x1 =>
    apply stripLits_none_before_sep _ _ _ _ _ hsep
    apply not_starts_of_not_occurs pat x1 x2
    rw [he] at hocc
    exact hocc

theorem take_consumed (a b : JSString) : (a ++ b).take ((a ++ b).length - b.length) = a := by
  rw [List.length_append, Nat.add_sub_cancel]
  exact List.take_left' rfl

theorem tail_after_value (q4 : Nat) (a3 post : JSString) (cap : Option JSString)
    (hq : q4 ∈ quotes) (ha : 62 ∉ a3) :
    (Re.cat [.cls false quotes, .star true (lit ">"), .lits (lit ">")]).run
      (q4 :: (a3 ++ 62 :: post)) cap (fun _ c => some c) = some cap := by
  rw [run_cat_cls _ _ _ _ _ _ _ _ (inClass_quote q4 hq), run_cat_star]
  apply starRun_skip
  · intro c hc
    exact inClass_not_gt c (fun e => ha (e ▸ hc))
  · have hl : stripLits (lit ">") (62 :: post) = some post :=
      stripLits_of_ci (lit ">") [62] post (by decide)
    simp only [starRun, inClass_gt, Re.cat, Re.run, hl]
    rfl

theorem run_cat_group_plus {α : Type} (neg : Bool) (set s : JSString) (x : Nat) (r : Re)
    (rs : List Re) (cap : Option JSString) (k : JSString → Option JSString → Option α)
    (h : inClass neg set x = true) :
    (Re.cat (.group (.plus neg set) :: r :: rs)).run (x :: s) cap k
      = starRun neg set s (fun rest =>
          (Re.cat (r :: rs)).run rest (some ((x :: s).take ((x :: s).length - rest.length))) k) := by
  simp only [Re.cat, Re.run, h, if_true]

theorem from_href (t : IconLink) (post : JSString) (cap : Option JSString)
    (hwf : t.wellFormed) :
    (Re.cat [.lits (lit "href="), .cls false quotes, .group (.plus true quotes),
        .cls false quotes, .star true (lit ">"), .lits (lit ">")]).run
      (t.hrefPart ++ 62 :: post) cap (fun _ c => some c) = some (some t.href) := by
  obtain ⟨_, _, _, _, hkey, _, _, hq3, hq4, hne, hval, _, _, ha3, _, _, _⟩ := hwf
  simp only [IconLink.hrefPart, List.append_assoc, List.cons_append]
  rw [run_cat_lits _ _ _ _ _ _ _ hkey, run_cat_cls _ _ _ _ _ _ _ _ (inClass_quote _ hq3)]
  cases hr : t.href with
  | nil => exact absurd hr hne
  | cons c r =>
    rw [hr] at hval
    rw [List.cons_append,
      run_cat_group_plus _ _ _ _ _ _ _ _ (inClass_not_quote c (hval c (by simp)))]
    apply starRun_skip
    · intro d hd
      exact inClass_not_quote d (hval d (List.mem_cons_of_mem _ hd))
    · simp only [starRun, inClass_quote_neg _ hq4, Bool.false_eq_true, if_false]
      have ht : (c :: (r ++ t.q4 :: (t.a3 ++ 62 :: post))).take
          ((c :: (r ++ t.q4 :: (t.a3 ++ 62 :: post))).length
            - (t.q4 :: (t.a3 ++ 62 :: post)).length) = c :: r :=
        take_consumed (c :: r) (t.q4 :: (t.a3 ++ 62 :: post))
      have := tail_after_value t.q4 t.a3 post (some (c :: r)) hq4 ha3
      rw [ht]
      exact this

theorem no_gt_of_ci (p q : JSString) (h : p.map canon = q.map canon)
    (hq : 62 ∉ q.map canon) : 62 ∉ p := by
  intro hm
  apply hq
  rw [← h]
  exact List.mem_map.mpr ⟨62, hm, by decide⟩

theorem quote_ne_gt (q : Nat) (h : q ∈ quotes) : q ≠ 62 := by
  intro e
  subst e
  revert h
  decide

theorem no_gt_hrefPart (t : IconLink) (hwf : t.wellFormed) : 62 ∉ t.hrefPart := by
  obtain ⟨_, _, _, _, hkey, _, _, hq3, hq4, _, _, _, _, ha3, hval, _, _⟩ := hwf
  have h1 := no_gt_of_ci _ _ hkey (by decide)
  have h3 := quote_ne_gt _ hq3
  have h4 := quote_ne_gt _ hq4
  simp only [IconLink.hrefPart, List.mem_append, List.mem_cons, not_or]
  exact ⟨h1, fun e => h3 e.symm, hval, fun e => h4 e.symm, ha3⟩

theorem no_gt_relPart (t : IconLink) (hwf : t.wellFormed) : 62 ∉ t.relPart := by
  have hh := no_gt_hrefPart t hwf
  obtain ⟨_, hrel, hsc, hicon, _, hq1, hq2, _, _, _, _, _, ha2, _, _, _, _⟩ := hwf
  have h1 := no_gt_of_ci _ _ hrel (by decide)
  have h2 := no_gt_of_ci _ _ hicon (by decide)
  have h3 : 62 ∉ t.shortcut := by
    rcases hsc with h | h
    · rw [h]; simp
    · exact no_gt_of_ci _ _ h (by decide)
  have h4 := quote_ne_gt _ hq1
  have h5 := quote_ne_gt _ hq2
  simp only [IconLink.relPart, List.mem_append, List.mem_cons, not_or]
  exact ⟨h1, fun e => h4 e.symm, h3, h2, fun e => h5 e.symm, ha2, hh⟩

theorem run_cat_opt_lits {α : Type} (cs sc s : JSString) (r : Re) (rs : List Re)
    (cap : Option JSString) (k : JSString → Option JSString → Option α) (res : α)
    (hsc : (sc = [] ∧ stripLits cs s = none) ∨ sc.map canon = cs.map canon)
    (h : (Re.cat (r :: rs)).run s cap k = some res) :
    (Re.cat (.opt (.lits cs) :: r :: rs)).run (sc ++ s) cap k = some res := by
  rcases hsc with ⟨h1, h2⟩ | h1
  · subst h1
    simp only [Re.cat, Re.run, List.nil_append, h2]
    exact h
  · simp only [Re.cat, Re.run, stripLits_of_ci cs sc s h1]
    rw [h]

theorem shortcut_not_icon (icon s : JSString) (h : icon.map canon = (lit "icon").map canon) :
    stripLits (lit "shortcut ") (icon ++ s) = none := by
  have hi : (lit "icon").map canon = [73, 67, 79, 78] := by decide
  rw [hi] at h
  cases icon with
  | nil => simp at h
  | cons x xs =>
    have hx : canon x = 73 := by
      simp only [List.map_cons, List.cons.injEq] at h
      exact h.1
    have hne : ¬ canon x = canon 115 := by
      rw [hx]; decide
    show stripLits (115 :: (lit "hortcut ")) (x :: (xs ++ s)) = none
    simp only [stripLits, hne, if_false]

theorem from_rel (t : IconLink) (post : JSString) (cap : Option JSString)
    (hwf : t.wellFormed) :
    (Re.cat [.lits (lit "rel="), .cls false quotes, .opt (.lits (lit "shortcut ")),
        .lits (lit "icon"), .cls false quotes, .star true (lit ">"),
        .lits (lit "href="), .cls false quotes, .group (.plus true quotes),
        .cls false quotes, .star true (lit ">"), .lits (lit ">")]).run
      (t.relPart ++ 62 :: post) cap (fun _ c => some c) = some (some t.href) := by
  have hhref := from_href t post cap hwf
  have hgt := no_gt_hrefPart t hwf
  obtain ⟨_, hrel, hsc, hicon, _, hq1, hq2, _, _, _, _, _, ha2, _, _, _, hocc⟩ := hwf
  simp only [IconLink.relPart, List.append_assoc, List.cons_append]
  rw [run_cat_lits _ _ _ _ _ _ _ hrel, run_cat_cls _ _ _ _ _ _ _ _ (inClass_quote _ hq1)]
  apply run_cat_opt_lits
  · rcases hsc with h | h
    · exact Or.inl ⟨h, shortcut_not_icon _ _ hicon⟩
    · exact Or.inr h
  · rw [run_cat_lits _ _ _ _ _ _ _ hicon, run_cat_cls _ _ _ _ _ _ _ _ (inClass_quote _ hq2),
      run_cat_star]
    apply starRun_last
    · intro c hc
      exact inClass_not_gt c (fun e => ha2 (e ▸ hc))
    · intro c hc
      exact inClass_not_gt c (fun e => hgt (e ▸ hc))
    · intro c z he
      injection he with he _
      rw [← he]
      exact inClass_gt
    · intro x1 x2 he hne
      exact run_cat_lits_none _ _ _ _ _ _
        (no_later_start _ _ x1 x2 post hocc he hne (by decide))
    · exact hhref

theorem faviconRe_run_none (s : JSString) (h : startsCI (lit "<link") s = false) :
    faviconRe.run s none (fun _ c => some c) = none := by
  unfold faviconRe
  exact run_cat_lits_none _ _ _ _ _ _ (stripLits_none_of_not_starts _ _ h)

theorem faviconRe_run_on_tag (t : IconLink) (post : JSString) (hwf : t.wellFormed) :
    faviconRe.run (t.text ++ post) none (fun _ c => some c) = some (some t.href) := by
  have hrel := from_rel t post none hwf
  have hgt := no_gt_relPart t hwf
  obtain ⟨hopen, _, _, _, _, _, _, _, _, _, _, ha1, _, _, _, hocc, _⟩ := hwf
  unfold faviconRe
  simp only [IconLink.text, List.append_assoc, List.cons_append, List.nil_append]
  rw [run_cat_lits _ _ _ _ _ _ _ hopen, run_cat_star]
  apply starRun_last
  · intro c hc
    exact inClass_not_gt c (fun e => ha1 (e ▸ hc))
  · intro c hc
    exact inClass_not_gt c (fun e => hgt (e ▸ hc))
  · intro c z he
    injection he with he _
    rw [← he]
    exact inClass_gt
  · intro x1 x2 he hne
    exact run_cat_lits_none _ _ _ _ _ _
      (no_later_start _ _ x1 x2 post hocc he hne (by decide))
  · exact hrel

theorem exec_of_run (r : Re) (s : JSString) (cap : Option JSString)
    (h : r.run s none (fun _ c => some c) = some cap) : r.exec s = some cap := by
  cases s with
  | nil => exact h
  | cons x xs => simp only [Re.exec, h]

theorem exec_skip (r : Re) (x : Nat) (xs : JSString)
    (h : r.run (x :: xs) none (fun _ c => some c) = none) : r.exec (x :: xs) = r.exec xs := by
  simp only [Re.exec, h]

theorem starRun_split {α : Type} (neg : Bool) (set s : JSString) (k : JSString → Option α)
    (res : α) (h : starRun neg set s k = some res) :
    ∃ u rest, s = u ++ rest ∧ (∀ c ∈ u, inClass neg set c = true) ∧ k rest = some res := by
  induction s with
  | nil => exact ⟨[], [], rfl, by simp, h⟩
  | cons x xs ih =>
    unfold starRun at h
    split at h
    · next hx =>
      split at h
      · next r hr =>
        injection h with h
        subst h
        obtain ⟨u, rest, he, hu, hk⟩ := ih hr
        refine ⟨x :: u, rest, by rw [he]; rfl, ?_, hk⟩
        intro c hc
        rcases List.mem_cons.mp hc with h1 | h1
        · rw [h1]; exact hx
        · exact hu c h1
      · exact ⟨[], x :: xs, rfl, by simp, h⟩
    · exact ⟨[], x :: xs, rfl, by simp, h⟩

theorem stripLits_split (cs s rest : JSString) (h : stripLits cs s = some rest) :
    ∃ p, s = p ++ rest ∧ p.map canon = cs.map canon := by
  induction cs generalizing s with
  | nil =>
    simp only [stripLits] at h
    injection h with h
    exact ⟨[], by rw [h]; rfl, rfl⟩
  | cons c cs ih =>
    cases s with
    | nil => simp [stripLits] at h
    | cons x xs =>
      simp only [stripLits] at h
      split at h
      · next hc =>
        obtain ⟨p, he, hp⟩ := ih xs h
        exact ⟨x :: p, by rw [he]; rfl, by simp [hc, hp]⟩
      · cases h

theorem inv_lits {α : Type} (cs s : JSString) (r : Re) (rs : List Re)
    (cap : Option JSString) (k : JSString → Option JSString → Option α) (res : α)
    (h : (Re.cat (.lits cs :: r :: rs)).run s cap k = some res) :
    ∃ p rest, s = p ++ rest ∧ p.map canon = cs.map canon ∧
      (Re.cat (r :: rs)).run rest cap k = some res := by
  simp only [Re.cat, Re.run] at h
  split at h
  · next rest hs =>
    obtain ⟨p, he, hp⟩ := stripLits_split cs s rest hs
    exact ⟨p, rest, he, hp, h⟩
  · cases h

theorem inv_cls {α : Type} (neg : Bool) (set s : JSString) (r : Re) (rs : List Re)
    (cap : Option JSString) (k : JSString → Option JSString → Option α) (res : α)
    (h : (Re.cat (.cls neg set :: r :: rs)).run s cap k = some res) :
    ∃ x rest, s = x :: rest ∧ inClass neg set x = true ∧
      (Re.cat (r :: rs)).run rest cap k = some res := by
  simp only [Re.cat, Re.run] at h
  split at h
  · next x xs =>
    split at h
    · next hx => exact ⟨x, xs, rfl, hx, h⟩
    · cases h
  · cases h

theorem inv_star {α : Type} (neg : Bool) (set s : JSString) (r : Re) (rs : List Re)
    (cap : Option JSString) (k : JSString → Option JSString → Option α) (res : α)
    (h : (Re.cat (.star neg set :: r :: rs)).run s cap k = some res) :
    ∃ u rest, s = u ++ rest ∧ (∀ c ∈ u, inClass neg set c = true) ∧
      (Re.cat (r :: rs)).run rest cap k = some res := by
  rw [run_cat_star] at h
  exact starRun_split neg set s _ res h

theorem inv_opt_lits {α : Type} (cs s : JSString) (r : Re) (rs : List Re)
    (cap : Option JSString) (k : JSString → Option JSString → Option α) (res : α)
    (h : (Re.cat (.opt (.lits cs) :: r :: rs)).run s cap k = some res) :
    ∃ p rest, s = p ++ rest ∧ (p = [] ∨ p.map canon = cs.map canon) ∧
      (Re.cat (r :: rs)).run rest cap k = some res := by
  simp only [Re.cat, Re.run] at h
  split at h
  · next res1 h1 =>
    injection h with h
    subst h
    split at h1
    · next rest hs =>
      obtain ⟨p, he, hp⟩ := stripLits_split cs s rest hs
      exact ⟨p, rest, he, Or.inr hp, h1⟩
    · cases h1
  · exact ⟨[], s, rfl, Or.inl rfl, h⟩

theorem uptoGt_append (a b : JSString) (h : 62 ∉ a) : uptoGt (a ++ b) = a ++ uptoGt b := by
  induction a with
  | nil => rfl
  | cons x xs ih =>
    have hx : x ≠ 62 := fun e => h (by simp [e])
    have := ih (fun hm => h (List.mem_cons_of_mem _ hm))
    simp only [uptoGt] at this ⊢
    simp [List.takeWhile_cons, hx, this]

theorem startsCI_of_ci (pat p b : JSString) (h : p.map canon = pat.map canon) :
    startsCI pat (p ++ b) = true := by
  induction pat generalizing p with
  | nil => simp [startsCI]
  | cons c cs ih =>
    cases p with
    | nil => simp at h
    | cons x xs =>
      simp only [List.map_cons, List.cons.injEq] at h
      have := ih xs h.2
      simp only [startsCI] at this
      simp only [startsCI, List.cons_append, List.map_cons, List.isPrefixOf, h.1,
        beq_self_eq_true, Bool.true_and]
      exact this

theorem occursCI_of_ci (pat a p b : JSString) (h : p.map canon = pat.map canon) :
    occursCI pat (a ++ (p ++ b)) = true := by
  induction a with
  | nil =>
    have hs := startsCI_of_ci pat p b h
    rw [List.nil_append]
    cases hpb : p ++ b with
    | nil => rw [hpb] at hs; simpa [occursCI] using hs
    | cons x xs => rw [hpb] at hs; simp [occursCI, hs]
  | cons x xs ih => simp [occursCI, ih]

theorem not_gt_of_inClass (c : Nat) (h : inClass true (lit ">") c = true) : c ≠ 62 := by
  intro e
  rw [e, inClass_gt] at h
  cases h

theorem not_gt_of_quote_class (c : Nat) (h : inClass false quotes c = true) : c ≠ 62 := by
  intro e
  rw [e] at h
  revert h
  decide

theorem faviconRe_needs_icon {α : Type} (s : JSString)
    (k : JSString → Option JSString → Option α) (res : α)
    (h : faviconRe.run s none k = some res) :
    occursCI (lit "icon") (uptoGt s) = true := by
  unfold faviconRe at h
  obtain ⟨p1, s1, e1, c1, h⟩ := inv_lits _ _ _ _ _ _ _ h
  obtain ⟨u, s2, e2, cu, h⟩ := inv_star _ _ _ _ _ _ _ _ h
  obtain ⟨p2, s3, e3, c2, h⟩ := inv_lits _ _ _ _ _ _ _ h
  obtain ⟨q, s4, e4, cq, h⟩ := inv_cls _ _ _ _ _ _ _ _ h
  obtain ⟨p3, s5, e5, c3, h⟩ := inv_opt_lits _ _ _ _ _ _ _ h
  obtain ⟨p4, s6, e6, c4, _⟩ := inv_lits _ _ _ _ _ _ _ h
  have g1 : 62 ∉ p1 := no_gt_of_ci _ _ c1 (by decide)
  have gu : 62 ∉ u := fun hm => not_gt_of_inClass 62 (cu 62 hm) rfl
  have g2 : 62 ∉ p2 := no_gt_of_ci _ _ c2 (by decide)
  have gq : q ≠ 62 := not_gt_of_quote_class q cq
  have g3 : 62 ∉ p3 := by
    rcases c3 with h3 | h3
    · rw [h3]; simp
    · exact no_gt_of_ci _ _ h3 (by decide)
  have g4 : 62 ∉ p4 := no_gt_of_ci _ _ c4 (by decide)
  have gall : 62 ∉ p1 ++ (u ++ (p2 ++ (q :: p3))) := by
    simp only [List.mem_append, List.mem_cons, not_or]
    exact ⟨g1, gu, g2, fun e => gq e.symm, g3⟩
  have es : s = (p1 ++ (u ++ (p2 ++ (q :: p3)))) ++ (p4 ++ s6) := by
    rw [e1, e2, e3, e4, e5, e6]
    simp
  rw [es, uptoGt_append _ _ gall, uptoGt_append _ _ g4]
  exact occursCI_of_ci _ _ _ _ c4

theorem faviconRe_run_none_icon_free (s : JSString)
    (h : occursCI (lit "icon") (uptoGt s) = false) :
    faviconRe.run s none (fun _ c => some c) = none := by
  cases hr : faviconRe.run s none (fun _ c => some c) with
  | none => rfl
  | some cap =>
    have := faviconRe_needs_icon s _ cap hr
    rw [h] at this
    cases this

theorem faviconRe_exec_skip_before (pre rest : JSString)
    (hfirst : noIconLinkBefore pre rest = true) :
    faviconRe.exec (pre ++ rest) = faviconRe.exec rest := by
  induction pre with
  | nil => rfl
  | cons x xs ih =>
    simp only [noIconLinkBefore, Bool.and_eq_true, Bool.or_eq_true, Bool.not_eq_true'] at hfirst
    have hrun : faviconRe.run (x :: (xs ++ rest)) none (fun _ c => some c) = none := by
      rcases hfirst.1 with h1 | h1
      · exact faviconRe_run_none _ h1
      · exact faviconRe_run_none_icon_free _ h1
    rw [List.cons_append, exec_skip _ _ _ hrun]
    exact ih hfirst.2

theorem faviconRe_exec_on_page (pre post : JSString) (t : IconLink) (hwf : t.wellFormed)
    (hfirst : noIconLinkBefore pre (t.text ++ post) = true) :
    faviconRe.exec (pre ++ (t.text ++ post)) = some (some t.href) := by
  rw [faviconRe_exec_skip_before pre _ hfirst]
  exact exec_of_run _ _ _ (faviconRe_run_on_tag t post hwf)

theorem faviconRe_exec_no_icon_link (html : JSString)
    (h : noIconLinkBefore html [] = true) : faviconRe.exec html = none := by
  have := faviconRe_exec_skip_before html [] h
  rw [List.append_nil] at this
  rw [this]
  exact faviconRe_run_none [] (by decide)

theorem favicon_of_capture (w : World) (u html S H r : JSString)
    (hf : w.fetchText (ensureProtocol u) = some html)
    (hp : w.parseURL (ensureProtocol u) = some ⟨S, H⟩)
    (hr : faviconRe.exec html = some (some r)) :
    (extractWebsiteInfo w u).out.map WebsiteInfo.favicon
      = .ok (if startsWith r (lit "/") then S ++ lit "//" ++ H ++ r
             else if startsWith r (lit "http") then r
             else S ++ lit "//" ++ H ++ lit "/" ++ r) := by
  rw [extract_page w u html ⟨S, H⟩ hf hp]
  obtain ⟨g, hg, he⟩ := faviconRe_exec_capture html _ hr
  injection he with he
  subst he
  simp only [hr, truthyGroup1, hg, ne_eq, not_false_eq_true, if_true, Except.map,
    resolveFavicon_cases]

theorem favicon_of_no_match (w : World) (u html S H : JSString)
    (hf : w.fetchText (ensureProtocol u) = some html)
    (hp : w.parseURL (ensureProtocol u) = some ⟨S, H⟩)
    (hn : faviconRe.exec html = none) :
    (extractWebsiteInfo w u).out.map WebsiteInfo.favicon
      = .ok (S ++ lit "//" ++ H ++ lit "/favicon.ico") := by
  rw [extract_page w u html ⟨S, H⟩ hf hp]
  simp only [hn, truthyGroup1, Except.map]

/-- C7 as stated fails: the link tag of this page carries `href="a.png"`, yet the favicon
is resolved from `b.png`, the value after the last `href=` inside the tag; and a value
holding a quote is cut at the quote. -/
theorem extractWebsiteInfo_favicon_not_href_value :
    (extractWebsiteInfo
        (pageWorld (lit "<link rel=\"icon\" href=\"a.png\" data-href=\"b.png\">"))
        (lit "https://site.com")).out.map WebsiteInfo.favicon
      = .ok (lit "https://site.com/b.png") ∧
    lit "https://site.com/b.png" ≠ lit "https://site.com/a.png" ∧
    (extractWebsiteInfo (pageWorld (lit "<link rel=\"icon\" href=\"it's.png\">"))
        (lit "https://site.com")).out.map WebsiteInfo.favicon
      = .ok (lit "https://site.com/it") :=
  ⟨favicon_of_capture _ (lit "https://site.com") _ (lit "https:") (lit "site.com")
      (lit "b.png") rfl (by decide) (by decide),
   by decide,
   favicon_of_capture _ (lit "https://site.com") _ (lit "https:") (lit "site.com")
      (lit "it") rfl (by decide) (by decide)⟩

/-- C7 amended. For a fetched page at a normalised URL with scheme `S` and host `H`.
Call a `<link` (any letter case) a candidate when the text from it up to the next `>`
contains `icon`. If the first candidate of the page is a tag
`<link a1 rel=Q[shortcut ]iconQ a2 href=Q r Q a3>` whose `rel=` and `href=` are the last
ones inside the tag, with `r` non-empty and free of quotes and no `>` inside the tag, the
favicon is `S//H` + `r` if `r` starts with `/`, else `r` unchanged if it starts with
`http`, else `S//H/` + `r`. If the page has no candidate, the favicon is
`S//H/favicon.ico`. For every page the favicon is resolved in that way from capture
group 1 of the leftmost match of the favicon pattern, which is never empty, and is
`S//H/favicon.ico` when the pattern does not match. -/
theorem extractWebsiteInfo_favicon_resolution (w : World) (u html S H : JSString)
    (hf : w.fetchText (ensureProtocol u) = some html)
    (hp : w.parseURL (ensureProtocol u) = some ⟨S, H⟩) :
    (∀ (pre post : JSString) (t : IconLink),
      html = pre ++ (t.text ++ post) → t.wellFormed →
      noIconLinkBefore pre (t.text ++ post) = true →
      (extractWebsiteInfo w u).out.map WebsiteInfo.favicon
        = .ok (if startsWith t.href (lit "/") then S ++ lit "//" ++ H ++ t.href
               else if startsWith t.href (lit "http") then t.href
               else S ++ lit "//" ++ H ++ lit "/" ++ t.href)) ∧
    (noIconLinkBefore html [] = true →
      (extractWebsiteInfo w u).out.map WebsiteInfo.favicon
        = .ok (S ++ lit "//" ++ H ++ lit "/favicon.ico")) ∧
    (∀ r, faviconRe.exec html = some (some r) →
      (extractWebsiteInfo w u).out.map WebsiteInfo.favicon
        = .ok (if startsWith r (lit "/") then S ++ lit "//" ++ H ++ r
               else if startsWith r (lit "http") then r
               else S ++ lit "//" ++ H ++ lit "/" ++ r)) ∧
    (faviconRe.exec html = none →
      (extractWebsiteInfo w u).out.map WebsiteInfo.favicon
        = .ok (S ++ lit "//" ++ H ++ lit "/favicon.ico")) ∧
    (faviconRe.exec html = none ∨ ∃ r, r ≠ [] ∧ faviconRe.exec html = some (some r)) := by
  refine ⟨?_, ?_, ?_, ?_, ?_⟩
  · intro pre post t he hwf hfirst
    exact favicon_of_capture w u html S H t.href hf hp
      (by rw [he]; exact faviconRe_exec_on_page pre post t hwf hfirst)
  · intro hno
    exact favicon_of_no_match w u html S H hf hp (faviconRe_exec_no_icon_link html hno)
  · intro r hr
    exact favicon_of_capture w u html S H r hf hp hr
  · intro hn
    exact favicon_of_no_match w u html S H hf hp hn
  · cases hc : faviconRe.exec html with
    | none => exact Or.inl rfl
    | some cap =>
      obtain ⟨g, hg, he⟩ := faviconRe_exec_capture html cap hc
      exact Or.inr ⟨g, hg, by rw [he]⟩

/-- Witness for C7 amended: the three pages of the specification served for
`https://site.com`, a page whose upper-case icon link follows a stylesheet link and
carries further attributes, and a page with a stylesheet link only. -/
theorem extractWebsiteInfo_favicon_resolution_witness :
    (extractWebsiteInfo (pageWorld (lit "<link rel=\"icon\" href=\"/icons/a.png\">"))
        (lit "https://site.com")).out.map WebsiteInfo.favicon
      = .ok (lit "https://site.com/icons/a.png") ∧
    (extractWebsiteInfo (pageWorld (lit "<link rel=\"icon\" href=\"icons/a.png\">"))
        (lit "https://site.com")).out.map WebsiteInfo.favicon
      = .ok (lit "https://site.com/icons/a.png") ∧
    (extractWebsiteInfo (pageWorld (lit "<link rel=\"icon\" href=\"https://cdn.com/a.png\">"))
        (lit "https://site.com")).out.map WebsiteInfo.favicon
      = .ok (lit "https://cdn.com/a.png") ∧
    (extractWebsiteInfo
        (pageWorld (lit ("<html><head><link rel=\"stylesheet\" href=\"s.css\"><title>T</title>"
          ++ "<LINK type=\"image/png\" REL='Shortcut Icon' HREF='/f.png' sizes=\"16x16\">"
          ++ "</head>")))
        (lit "https://site.com")).out.map WebsiteInfo.favicon
      = .ok (lit "https://site.com/f.png") ∧
    (extractWebsiteInfo
        (pageWorld (lit "<link rel=\"stylesheet\" href=\"s.css\"><p>no icon</p>"))
        (lit "https://site.com")).out.map WebsiteInfo.favicon
      = .ok (lit "https://site.com/favicon.ico") :=
  ⟨(extractWebsiteInfo_favicon_resolution
      (pageWorld (lit "<link rel=\"icon\" href=\"/icons/a.png\">")) (lit "https://site.com") _
      (lit "https:") (lit "site.com") rfl (by decide)).1 [] []
      ⟨lit "<link", lit " ", lit "rel=", 34, [], lit "icon", 34, lit " ", lit "href=", 34,
        lit "/icons/a.png", 34, []⟩ (by decide) (by decide) (by decide),
   (extractWebsiteInfo_favicon_resolution
      (pageWorld (lit "<link rel=\"icon\" href=\"icons/a.png\">")) (lit "https://site.com") _
      (lit "https:") (lit "site.com") rfl (by decide)).1 [] []
      ⟨lit "<link", lit " ", lit "rel=", 34, [], lit "icon", 34, lit " ", lit "href=", 34,
        lit "icons/a.png", 34, []⟩ (by decide) (by decide) (by decide),
   (extractWebsiteInfo_favicon_resolution
      (pageWorld (lit "<link rel=\"icon\" href=\"https://cdn.com/a.png\">"))
      (lit "https://site.com") _ (lit "https:") (lit "site.com") rfl (by decide)).1 [] []
      ⟨lit "<link", lit " ", lit "rel=", 34, [], lit "icon", 34, lit " ", lit "href=", 34,
        lit "https://cdn.com/a.png", 34, []⟩ (by decide) (by decide) (by decide),
   (extractWebsiteInfo_favicon_resolution
      (pageWorld (lit ("<html><head><link rel=\"stylesheet\" href=\"s.css\"><title>T</title>"
          ++ "<LINK type=\"image/png\" REL='Shortcut Icon' HREF='/f.png' sizes=\"16x16\">"
          ++ "</head>")))
      (lit "https://site.com") _ (lit "https:") (lit "site.com") rfl (by decide)).1
      (lit "<html><head><link rel=\"stylesheet\" href=\"s.css\"><title>T</title>")
      (lit "</head>")
      ⟨lit "<LINK", lit " type=\"image/png\" ", lit "REL=", 39, lit "Shortcut ", lit "Icon", 39,
        lit " ", lit "HREF=", 39, lit "/f.png", 39, lit " sizes=\"16x16\""⟩
      (by decide) (by decide) (by decide),
   (extractWebsiteInfo_favicon_resolution
      (pageWorld (lit "<link rel=\"stylesheet\" href=\"s.css\"><p>no icon</p>"))
      (lit "https://site.com") _ (lit "https:") (lit "site.com") rfl (by decide)).2.1
      (by decide)⟩

/-! ## Summary generation with a credential -/

theorem remoteSummary_post_fails (w : World) (n k : JSString) (h : w.axiosPost n k = none) :
    remoteSummary w n k = ⟨[.axiosPost n k], .ok none⟩ := by
  simp [remoteSummary, postJina, h, bind, Eff.andThen, Eff.tryCatch, Eff.ret]

theorem remoteSummary_summary_field (w : World) (n k s : JSString)
    (h : w.axiosPost n k = some (.object (.text s))) (hs : s ≠ []) :
    remoteSummary w n k = ⟨[.axiosPost n k], .ok (some (limitSummaryLength (trim s)))⟩ := by
  simp [remoteSummary, postJina, h, hs, bind, pure, Eff.andThen, Eff.tryCatch, Eff.ret]

theorem remoteSummary_text_body (w : World) (n k s : JSString)
    (h : w.axiosPost n k = some (.text s)) (hs : s ≠ []) :
    remoteSummary w n k = ⟨[.axiosPost n k], .ok (some (limitSummaryLength (trim s)))⟩ := by
  simp [remoteSummary, postJina, h, hs, bind, pure, Eff.andThen, Eff.tryCatch, Eff.ret]

theorem remoteSummary_unusable (w : World) (n k : JSString) (d : ResponseData)
    (h : w.axiosPost n k = some d)
    (hd : ∀ s, s ≠ [] → d ≠ .object (.text s) ∧ d ≠ .text s) :
    remoteSummary w n k = ⟨[.axiosPost n k], .ok none⟩ := by
  cases d with
  | text s =>
    have hs : s = [] := by
      by_contra hne
      exact (hd s hne).2 rfl
    simp [remoteSummary, postJina, h, hs, bind, pure, Eff.andThen, Eff.tryCatch, Eff.ret]
  | other t =>
    simp [remoteSummary, postJina, h, bind, pure, Eff.andThen, Eff.tryCatch, Eff.ret]
  | object f =>
    cases f with
    | text s =>
      have hs : s = [] := by
        by_contra hne
        exact (hd s hne).1 rfl
      simp [remoteSummary, postJina, h, hs, bind, pure, Eff.andThen, Eff.tryCatch, Eff.ret]
    | absent =>
      simp [remoteSummary, postJina, h, bind, pure, Eff.andThen, Eff.tryCatch, Eff.ret]
    | falsy =>
      simp [remoteSummary, postJina, h, bind, pure, Eff.andThen, Eff.tryCatch, Eff.ret]
    | truthyOther =>
      simp [remoteSummary, postJina, h, bind, Eff.andThen, Eff.tryCatch, Eff.ret, Eff.throw]

theorem generateSummary_of_remote (w : World) (url title k s : JSString) (c : List Call)
    (hk : w.JINA_API_KEY = some k) (hne : k ≠ [])
    (h : remoteSummary w (ensureProtocol url) k = ⟨c, .ok (some s)⟩) :
    generateSummary w url title = ⟨c, .ok s⟩ := by
  simp [generateSummary, hk, hne, h, bind, pure, Eff.andThen, Eff.tryCatch, Eff.ret]

theorem generateSummary_of_fallthrough (w : World) (url title k : JSString) (c : List Call)
    (hk : w.JINA_API_KEY = some k) (hne : k ≠ [])
    (h : remoteSummary w (ensureProtocol url) k = ⟨c, .ok none⟩) :
    generateSummary w url title
      = ⟨c, match (generateBasicSummary w (ensureProtocol url) title).out with
            | .ok b => .ok b
            | .error _ => .ok (lit "Bookmark saved: " ++ orElseStr title (ensureProtocol url))⟩ := by
  cases hp : w.parseURL (ensureProtocol url) with
  | none =>
    simp [generateSummary, hk, hne, h, bind, Eff.andThen, Eff.tryCatch, Eff.ret,
      generateBasicSummary_throws w _ title hp]
  | some u =>
    simp [generateSummary, hk, hne, h, bind, Eff.andThen, Eff.tryCatch, Eff.ret,
      generateBasicSummary_ok w _ title u hp]

theorem remoteSummary_shape (w : World) (n k : JSString) :
    remoteSummary w n k = ⟨[.axiosPost n k], .ok none⟩ ∨
    ∃ s, remoteSummary w n k = ⟨[.axiosPost n k], .ok (some (limitSummaryLength (trim s)))⟩ := by
  cases h : w.axiosPost n k with
  | none => exact Or.inl (remoteSummary_post_fails w n k h)
  | some d =>
    by_cases hd : ∀ s, s ≠ [] → d ≠ .object (.text s) ∧ d ≠ .text s
    · exact Or.inl (remoteSummary_unusable w n k d h hd)
    · simp only [not_forall] at hd
      obtain ⟨s, hs, hne⟩ := hd
      by_cases h1 : d = .object (.text s)
      · exact Or.inr ⟨s, remoteSummary_summary_field w n k s (h1 ▸ h) hs⟩
      · have h2 : d = .text s := by
          by_contra h2
          exact hne ⟨h1, h2⟩
        exact Or.inr ⟨s, remoteSummary_text_body w n k s (h2 ▸ h) hs⟩
theorem trim_of_plain_ends (s : JSString) (h : ∀ c ∈ s, isTrimmable c = false) : trim s = s := by
  have hd : ∀ t : JSString, (∀ c ∈ t, isTrimmable c = false) → t.dropWhile isTrimmable = t := by
    intro t ht
    cases t with
    | nil => rfl
    | cons x xs => simp [List.dropWhile_cons, ht x (by simp)]
  unfold trim
  rw [hd s h, hd s.reverse (fun c hc => h c (List.mem_reverse.mp hc)), List.reverse_reverse]

theorem trim_letters (n : Nat) : trim (List.replicate n 97) = List.replicate n 97 := by
  apply trim_of_plain_ends
  intro c hc
  rw [(List.mem_replicate.mp hc).2]
  decide

/-- C10 as stated fails: a 2xx response whose `summary` field is the empty string (or
whose body is the empty string) is answered with the basic summary, not with the
limited, trimmed empty string. -/
theorem generateSummary_empty_summary_falls_back :
    (remoteWorld (.object (.text []))).axiosPost (ensureProtocol (lit "example.com")) (lit "key")
      = some (.object (.text [])) ∧
    generateSummary (remoteWorld (.object (.text []))) (lit "example.com") (lit "T")
      = ⟨[.axiosPost (lit "https://example.com") (lit "key")],
          .ok (lit "Bookmark from example: \"T\". Access this link to view the full content.")⟩ ∧
    generateSummary (remoteWorld (.text [])) (lit "example.com") (lit "T")
      = ⟨[.axiosPost (lit "https://example.com") (lit "key")],
          .ok (lit "Bookmark from example: \"T\". Access this link to view the full content.")⟩ ∧
    limitSummaryLength (trim []) = [] ∧
    lit "Bookmark from example: \"T\". Access this link to view the full content."
      ≠ limitSummaryLength (trim []) := by
  have hn : ensureProtocol (lit "example.com") = lit "https://example.com" := by decide
  have hb : ∀ w : World, w.parseURL = sampleParseURL →
      generateBasicSummary w (lit "https://example.com") (lit "T")
        = ⟨[], .ok (lit
            "Bookmark from example: \"T\". Access this link to view the full content.")⟩ := by
    intro w hw
    rw [generateBasicSummary_ok w _ _ ⟨lit "https:", lit "example.com"⟩ (by rw [hw]; decide)]
    exact congrArg (fun s => (⟨[], .ok s⟩ : Eff JSString)) (by decide)
  have hu : ∀ d : ResponseData, (d = .object (.text []) ∨ d = .text []) →
      ∀ s : JSString, s ≠ [] → d ≠ .object (.text s) ∧ d ≠ .text s := by
    intro d hd s hs
    rcases hd with h | h <;> subst h <;> constructor <;> intro h <;> cases h <;> exact hs rfl
  refine ⟨rfl, ?_, ?_, by decide, by decide⟩
  · rw [generateSummary_of_fallthrough _ _ _ (lit "key") _ rfl (by decide)
      (remoteSummary_unusable _ _ _ _ rfl (hu _ (Or.inl rfl))), hn, hb _ rfl]
  · rw [generateSummary_of_fallthrough _ _ _ (lit "key") _ rfl (by decide)
      (remoteSummary_unusable _ _ _ _ rfl (hu _ (Or.inr rfl))), hn, hb _ rfl]

/-- C10 amended. With a non-empty credential `k`, `generateSummary` issues exactly one
remote call and: if it fails, or succeeds with a body that carries neither a non-empty
string under `summary` nor is itself a non-empty string, the result is the basic summary
of the normalised URL (the last-resort string when that throws); if the body carries a
non-empty string under `summary`, or is a non-empty string, the result is that string
trimmed and passed through `limitSummaryLength`. -/
theorem generateSummary_fallback_chain (w : World) (url title k : JSString)
    (hk : w.JINA_API_KEY = some k) (hne : k ≠ []) :
    (w.axiosPost (ensureProtocol url) k = none →
      generateSummary w url title
        = ⟨[.axiosPost (ensureProtocol url) k],
            match (generateBasicSummary w (ensureProtocol url) title).out with
            | .ok b => .ok b
            | .error _ => .ok (lit "Bookmark saved: " ++ orElseStr title (ensureProtocol url))⟩) ∧
    (∀ s, w.axiosPost (ensureProtocol url) k = some (.object (.text s)) → s ≠ [] →
      generateSummary w url title
        = ⟨[.axiosPost (ensureProtocol url) k], .ok (limitSummaryLength (trim s))⟩) ∧
    (∀ s, w.axiosPost (ensureProtocol url) k = some (.text s) → s ≠ [] →
      generateSummary w url title
        = ⟨[.axiosPost (ensureProtocol url) k], .ok (limitSummaryLength (trim s))⟩) ∧
    (∀ d, w.axiosPost (ensureProtocol url) k = some d →
      (∀ s, s ≠ [] → d ≠ .object (.text s) ∧ d ≠ .text s) →
      generateSummary w url title
        = ⟨[.axiosPost (ensureProtocol url) k],
            match (generateBasicSummary w (ensureProtocol url) title).out with
            | .ok b => .ok b
            | .error _ => .ok (lit "Bookmark saved: " ++ orElseStr title (ensureProtocol url))⟩) :=
  ⟨fun h => generateSummary_of_fallthrough w url title k _ hk hne
      (remoteSummary_post_fails w _ k h),
   fun s h hs => generateSummary_of_remote w url title k _ _ hk hne
      (remoteSummary_summary_field w _ k s h hs),
   fun s h hs => generateSummary_of_remote w url title k _ _ hk hne
      (remoteSummary_text_body w _ k s h hs),
   fun d h hd => generateSummary_of_fallthrough w url title k _ hk hne
      (remoteSummary_unusable w _ k d h hd)⟩

/-- Witness for C10 amended: a summariser answering `{summary: "  hello. "}`. -/
theorem generateSummary_fallback_chain_witness :
    generateSummary (remoteWorld (.object (.text (lit "  hello. ")))) (lit "example.com") (lit "T")
      = ⟨[.axiosPost (lit "https://example.com") (lit "key")], .ok (lit "hello.")⟩ :=
  (generateSummary_fallback_chain (remoteWorld (.object (.text (lit "  hello. "))))
    (lit "example.com") (lit "T") (lit "key") rfl (by decide)).2.1 (lit "  hello. ") rfl
    (by decide)

/-! ## Totality and length of the summary -/

theorem generateSummary_shape (w : World) (url title : JSString) :
    ∃ s, (generateSummary w url title).out = .ok s ∧
      (s.length ≤ 1003 ∨
       (generateBasicSummary w (ensureProtocol url) title).out = .ok s ∨
       s = lit "Bookmark saved: " ++ orElseStr title (ensureProtocol url)) := by
  have hfall : ∀ o : Except JSError JSString,
      o = (generateBasicSummary w (ensureProtocol url) title).out →
      ∃ s, (match o with
          | .ok b => (.ok b : Except JSError JSString)
          | .error _ => .ok (lit "Bookmark saved: " ++ orElseStr title (ensureProtocol url)))
          = .ok s ∧
        (s.length ≤ 1003 ∨ (generateBasicSummary w (ensureProtocol url) title).out = .ok s ∨
          s = lit "Bookmark saved: " ++ orElseStr title (ensureProtocol url)) := by
    intro o ho
    cases o with
    | ok b => exact ⟨b, rfl, Or.inr (Or.inl ho.symm)⟩
    | error e => exact ⟨_, rfl, Or.inr (Or.inr rfl)⟩
  by_cases hkey : w.JINA_API_KEY = none ∨ w.JINA_API_KEY = some []
  · rw [generateSummary_no_key w url title hkey]
    cases hp : w.parseURL (ensureProtocol url) with
    | none =>
      rw [generateBasicSummary_throws w _ title hp]
      exact ⟨_, rfl, Or.inr (Or.inr rfl)⟩
    | some u =>
      rw [generateBasicSummary_ok w _ title u hp]
      exact ⟨_, rfl, Or.inr (Or.inl rfl)⟩
  · obtain ⟨k, hk, hne⟩ : ∃ k, w.JINA_API_KEY = some k ∧ k ≠ [] := by
      cases hj : w.JINA_API_KEY with
      | none => exact absurd (Or.inl hj) hkey
      | some k =>
        refine ⟨k, rfl, fun hk => hkey (Or.inr ?_)⟩
        rw [hj, hk]
    rcases remoteSummary_shape w (ensureProtocol url) k with h | ⟨s, h⟩
    · rw [generateSummary_of_fallthrough w url title k _ hk hne h]
      exact hfall _ rfl
    · rw [generateSummary_of_remote w url title k _ _ hk hne h]
      exact ⟨_, rfl, Or.inl (limit_length_le _)⟩

/-- C1 as stated fails: a 1001-letter body from the summariser comes back as 1000 letters
plus `...`, 1003 units; and without a credential a 1001-letter title is embedded whole in
the basic summary. -/
theorem generateSummary_exceeds_1000 :
    (generateSummary (remoteWorld (.text (List.replicate 1001 97))) (lit "example.com")
        (lit "T")).out = .ok (List.replicate 1000 97 ++ lit "...") ∧
    (List.replicate 1000 97 ++ lit "...").length = 1003 ∧
    (generateSummary offlineWorld (lit "https://www.example.com/page")
        (List.replicate 1001 97)).out
      = .ok (lit "Bookmark from " ++ lit "example" ++ lit ": \"" ++ List.replicate 1001 97
          ++ lit "\". Access this link to view the full content.") ∧
    1000 < (lit "Bookmark from " ++ lit "example" ++ lit ": \"" ++ List.replicate 1001 97
          ++ lit "\". Access this link to view the full content.").length := by
  have hcut : limitSummaryLength (List.replicate 1001 97)
      = List.replicate 1000 97 ++ lit "..." := by
    have hno : 46 ∉ (List.replicate 1001 97).take 1000 := by
      rw [replicate_take_1000 97 1001 (by omega)]
      intro h
      have := (List.mem_replicate.mp h).2
      omega
    rw [limit_absent _ (by rw [List.length_replicate]; omega) hno,
      replicate_take_1000 97 1001 (by omega)]
  have hne : List.replicate 1001 97 ≠ [] := by
    intro h
    have := congrArg List.length h
    rw [List.length_replicate] at this
    cases this
  refine ⟨?_, ?_, ?_, ?_⟩
  · rw [generateSummary_of_remote _ _ _ (lit "key") _ _ rfl (by decide)
      (remoteSummary_text_body _ _ _ _ rfl hne), trim_letters, hcut]
  · rw [List.length_append, List.length_replicate]
    rfl
  · rw [generateSummary_no_key_www offlineWorld (lit "https://www.example.com/page")
      (List.replicate 1001 97) (lit "https:") (lit "example") (lit "com") (Or.inl rfl)
      (by decide) (by decide) hne]
  · rw [List.length_append, List.length_append, List.length_replicate]
    omega

theorem generateSummary_fallback_value (w : World) (url title : JSString) :
    (match (generateBasicSummary w (ensureProtocol url) title).out with
      | .ok b => (.ok b : Except JSError JSString)
      | .error _ => .ok (lit "Bookmark saved: " ++ orElseStr title (ensureProtocol url)))
    = .ok (match w.parseURL (ensureProtocol url) with
        | some u =>
          lit "Bookmark from " ++ splitHead 46 (replaceFirst (lit "www.") [] u.hostname)
            ++ lit ": \"" ++ orElseStr title (ensureProtocol url)
            ++ lit "\". Access this link to view the full content."
        | none => lit "Bookmark saved: " ++ orElseStr title (ensureProtocol url)) := by
  cases hp : w.parseURL (ensureProtocol url) with
  | none => rw [generateBasicSummary_throws w _ title hp]
  | some u => rw [generateBasicSummary_ok w _ title u hp]

theorem generateSummary_fallback_cases (w : World) (url title : JSString)
    (h : w.JINA_API_KEY = none ∨ w.JINA_API_KEY = some [] ∨
      ∃ k, w.JINA_API_KEY = some k ∧ k ≠ [] ∧
        (w.axiosPost (ensureProtocol url) k = none ∨
         ∃ d, w.axiosPost (ensureProtocol url) k = some d ∧
           ∀ t, t ≠ [] → d ≠ .object (.text t) ∧ d ≠ .text t)) :
    (generateSummary w url title).out
      = .ok (match w.parseURL (ensureProtocol url) with
        | some u =>
          lit "Bookmark from " ++ splitHead 46 (replaceFirst (lit "www.") [] u.hostname)
            ++ lit ": \"" ++ orElseStr title (ensureProtocol url)
            ++ lit "\". Access this link to view the full content."
        | none => lit "Bookmark saved: " ++ orElseStr title (ensureProtocol url)) := by
  rw [← generateSummary_fallback_value]
  rcases h with h | h | ⟨k, hk, hne, h⟩
  · rw [generateSummary_no_key w url title (Or.inl h)]
    cases hp : w.parseURL (ensureProtocol url) with
    | none => rw [generateBasicSummary_throws w _ title hp]; rfl
    | some u => rw [generateBasicSummary_ok w _ title u hp]; rfl
  · rw [generateSummary_no_key w url title (Or.inr h)]
    cases hp : w.parseURL (ensureProtocol url) with
    | none => rw [generateBasicSummary_throws w _ title hp]; rfl
    | some u => rw [generateBasicSummary_ok w _ title u hp]; rfl
  · rcases h with h | ⟨d, h, hd⟩
    · rw [generateSummary_of_fallthrough w url title k _ hk hne
        (remoteSummary_post_fails w _ k h)]
    · rw [generateSummary_of_fallthrough w url title k _ hk hne
        (remoteSummary_unusable w _ k d h hd)]

theorem fallback_embeds_title (body : JSString) (u : Option URLRecord) :
    body.length < (match u with
        | some u =>
          lit "Bookmark from " ++ splitHead 46 (replaceFirst (lit "www.") [] u.hostname)
            ++ lit ": \"" ++ body
            ++ lit "\". Access this link to view the full content."
        | none => lit "Bookmark saved: " ++ body).length := by
  cases u with
  | none =>
    show body.length < (lit "Bookmark saved: " ++ body).length
    rw [List.length_append]
    have : (lit "Bookmark saved: ").length = 16 := by decide
    omega
  | some u =>
    show body.length < (lit "Bookmark from " ++ _ ++ lit ": \"" ++ body ++ _).length
    simp only [List.length_append]
    have : (lit ": \"").length = 3 := by decide
    omega

theorem summary_cases_exhaustive (w : World) (n : JSString) :
    (∃ k t, w.JINA_API_KEY = some k ∧ k ≠ [] ∧ t ≠ [] ∧
      (w.axiosPost n k = some (.object (.text t)) ∨ w.axiosPost n k = some (.text t))) ∨
    (w.JINA_API_KEY = none ∨ w.JINA_API_KEY = some [] ∨
      ∃ k, w.JINA_API_KEY = some k ∧ k ≠ [] ∧
        (w.axiosPost n k = none ∨
         ∃ d, w.axiosPost n k = some d ∧
           ∀ t, t ≠ [] → d ≠ .object (.text t) ∧ d ≠ .text t)) := by
  cases hk : w.JINA_API_KEY with
  | none => exact Or.inr (Or.inl rfl)
  | some k =>
    by_cases hne : k = []
    · exact Or.inr (Or.inr (Or.inl (by rw [hne])))
    · cases hp : w.axiosPost n k with
      | none => exact Or.inr (Or.inr (Or.inr ⟨k, rfl, hne, Or.inl hp⟩))
      | some d =>
        by_cases hd : ∀ t, t ≠ [] → d ≠ .object (.text t) ∧ d ≠ .text t
        · exact Or.inr (Or.inr (Or.inr ⟨k, rfl, hne, Or.inr ⟨d, hp, hd⟩⟩))
        · simp only [not_forall] at hd
          obtain ⟨t, ht, hnot⟩ := hd
          refine Or.inl ⟨k, t, rfl, hne, ht, ?_⟩
          by_cases h1 : d = .object (.text t)
          · exact Or.inl (by rw [hp, h1])
          · have h2 : d = .text t := by
              by_contra h2
              exact hnot ⟨h1, h2⟩
            exact Or.inr (by rw [hp, h2])

/-- C1 amended. For every url, title, credential and remote outcome `generateSummary`
returns a string and never throws. When a non-empty credential is set and the remote
call succeeds with a non-empty string `t` (under `summary`, or as the body), the result
is `limitSummaryLength (trim t)` and has at most 1003 units (the cap of 1000 plus `...`).
In every other case the result is the basic summary of the normalised URL, or the
last-resort string when that URL does not parse; both embed the title (or URL) whole, so
they are longer than it. One of the two cases always applies. -/
theorem generateSummary_total_and_bounded (w : World) (url title : JSString) :
    (∃ s, (generateSummary w url title).out = .ok s) ∧
    (∀ k t, w.JINA_API_KEY = some k → k ≠ [] → t ≠ [] →
      (w.axiosPost (ensureProtocol url) k = some (.object (.text t)) ∨
       w.axiosPost (ensureProtocol url) k = some (.text t)) →
      (generateSummary w url title).out = .ok (limitSummaryLength (trim t)) ∧
      (limitSummaryLength (trim t)).length ≤ 1003) ∧
    ((w.JINA_API_KEY = none ∨ w.JINA_API_KEY = some [] ∨
      ∃ k, w.JINA_API_KEY = some k ∧ k ≠ [] ∧
        (w.axiosPost (ensureProtocol url) k = none ∨
         ∃ d, w.axiosPost (ensureProtocol url) k = some d ∧
           ∀ t, t ≠ [] → d ≠ .object (.text t) ∧ d ≠ .text t)) →
      ∃ s, (generateSummary w url title).out = .ok s ∧
        s = (match w.parseURL (ensureProtocol url) with
          | some u =>
            lit "Bookmark from " ++ splitHead 46 (replaceFirst (lit "www.") [] u.hostname)
              ++ lit ": \"" ++ orElseStr title (ensureProtocol url)
              ++ lit "\". Access this link to view the full content."
          | none => lit "Bookmark saved: " ++ orElseStr title (ensureProtocol url)) ∧
        (orElseStr title (ensureProtocol url)).length < s.length) ∧
    ((∃ k t, w.JINA_API_KEY = some k ∧ k ≠ [] ∧ t ≠ [] ∧
        (w.axiosPost (ensureProtocol url) k = some (.object (.text t)) ∨
         w.axiosPost (ensureProtocol url) k = some (.text t))) ∨
     (w.JINA_API_KEY = none ∨ w.JINA_API_KEY = some [] ∨
      ∃ k, w.JINA_API_KEY = some k ∧ k ≠ [] ∧
        (w.axiosPost (ensureProtocol url) k = none ∨
         ∃ d, w.axiosPost (ensureProtocol url) k = some d ∧
           ∀ t, t ≠ [] → d ≠ .object (.text t) ∧ d ≠ .text t))) := by
  refine ⟨?_, ?_, ?_, summary_cases_exhaustive w _⟩
  · obtain ⟨s, hs, _⟩ := generateSummary_shape w url title
    exact ⟨s, hs⟩
  · intro k t hk hne ht hpost
    refine ⟨?_, limit_length_le _⟩
    rcases hpost with h | h
    · rw [generateSummary_of_remote w url title k _ _ hk hne
        (remoteSummary_summary_field w _ k t h ht)]
    · rw [generateSummary_of_remote w url title k _ _ hk hne
        (remoteSummary_text_body w _ k t h ht)]
  · intro h
    exact ⟨_, generateSummary_fallback_cases w url title h, rfl, fallback_embeds_title _ _⟩

/-- Witness for C1 amended: a summariser answering the text `Short summary.`, and the
same request with the network down and no credential. -/
theorem generateSummary_total_and_bounded_witness :
    ((generateSummary (remoteWorld (.text (lit " Short summary. "))) (lit "example.com")
        (lit "T")).out = .ok (lit "Short summary.") ∧
      (lit "Short summary.").length ≤ 1003) ∧
    ∃ s, (generateSummary offlineWorld (lit "example.com") (lit "T")).out = .ok s ∧
      s = lit "Bookmark from example: \"T\". Access this link to view the full content." ∧
      (lit "T").length < s.length :=
  ⟨(generateSummary_total_and_bounded (remoteWorld (.text (lit " Short summary. ")))
      (lit "example.com") (lit "T")).2.1 (lit "key") (lit " Short summary. ") rfl
      (by decide) (by decide) (Or.inr rfl),
   (generateSummary_total_and_bounded offlineWorld (lit "example.com") (lit "T")).2.2.1
      (Or.inl rfl)⟩

/-! ## The ingestion handler -/

theorem generateSummary_never_throws (w : World) (url title : JSString) :
    ∃ c s, generateSummary w url title = ⟨c, .ok s⟩ := by
  obtain ⟨s, hs, _⟩ := generateSummary_shape w url title
  refine ⟨(generateSummary w url title).calls, s, ?_⟩
  cases hg : generateSummary w url title with
  | mk c o =>
    rw [hg] at hs
    simp only at hs
    rw [hs]

theorem createBookmark_valid (w : World) (db : Store) (req : Request) (info : WebsiteInfo)
    (summary : JSString) (c1 c2 : List Call) (hv : req.validationErrors = [])
    (h1 : extractWebsiteInfo w req.url = ⟨c1, .ok info⟩)
    (h2 : generateSummary w req.url info.title = ⟨c2, .ok summary⟩) :
    createBookmark w db req
      = match Bookmark.create w db req.userId req.url info.title info.favicon summary with
        | (db1, .ok bookmark) =>
          ⟨⟨201, .saved (lit "Bookmark saved successfully") bookmark⟩, db1,
            c1 ++ c2 ++ [.dbInsert req.userId req.url info.title info.favicon summary]⟩
        | (db1, .error _) =>
          ⟨⟨500, .message (lit "Error saving bookmark")⟩, db1,
            c1 ++ c2 ++ [.dbInsert req.userId req.url info.title info.favicon summary]⟩ := by
  simp [createBookmark, hv, h1, h2, bind, pure, Eff.andThen, Eff.ret]

theorem create_ok (w : World) (db : Store) (userId : Nat) (url title favicon summary : JSString)
    (h : w.dbFault = none) :
    Bookmark.create w db userId url title favicon summary
      = ({ rows := db.rows ++ [{ id := db.seq + 1, user_id := userId, url := url,
                                 title := title, favicon := favicon, summary := summary,
                                 created_at := w.now }],
           seq := db.seq + 1 },
         .ok { id := db.seq + 1, userId := userId, url := url, title := title,
               favicon := favicon, summary := summary }) := by
  simp [Bookmark.create, h]

theorem create_rejects (w : World) (db : Store) (userId : Nat)
    (url title favicon summary : JSString) (e : JSError) (h : w.dbFault = some e) :
    Bookmark.create w db userId url title favicon summary = (db, .error e) := by
  simp [Bookmark.create, h]
/-- C8. For a validated request with raw URL `u`, the helpers return `info` and `summary`
(`extractWebsiteInfo u` and `generateSummary u info.title`), the single database call of
`createBookmark` is the insert of `(userId, u, info.title, info.favicon, summary)` with
`u` exactly as submitted, and when the insert succeeds the 201 body and the new row carry
that same `u`, title, favicon and summary. -/
theorem createBookmark_persists_raw_url (w : World) (db : Store) (req : Request)
    (hv : req.validationErrors = []) :
    ∃ info summary,
      (extractWebsiteInfo w req.url).out = .ok info ∧
      (generateSummary w req.url info.title).out = .ok summary ∧
      (createBookmark w db req).calls
        = (extractWebsiteInfo w req.url).calls ++ (generateSummary w req.url info.title).calls
          ++ [.dbInsert req.userId req.url info.title info.favicon summary] ∧
      (w.dbFault = none →
        (createBookmark w db req).response
          = ⟨201, .saved (lit "Bookmark saved successfully")
              { id := db.seq + 1, userId := req.userId, url := req.url, title := info.title,
                favicon := info.favicon, summary := summary }⟩ ∧
        (createBookmark w db req).db.rows
          = db.rows ++ [{ id := db.seq + 1, user_id := req.userId, url := req.url,
                          title := info.title, favicon := info.favicon, summary := summary,
                          created_at := w.now }]) := by
  obtain ⟨info, h1⟩ := extract_never_throws w req.url
  obtain ⟨c2, summary, h2⟩ := generateSummary_never_throws w req.url info.title
  have hc := createBookmark_valid w db req info summary _ c2 hv h1 h2
  refine ⟨info, summary, by rw [h1], by rw [h2], ?_, ?_⟩
  · rw [hc, h1, h2]
    cases hf : w.dbFault with
    | none => rw [create_ok w db _ _ _ _ _ hf]
    | some e => rw [create_rejects w db _ _ _ _ _ e hf]
  · intro hf
    rw [hc, create_ok w db _ _ _ _ _ hf]
    exact ⟨rfl, rfl⟩

/-- Witness for C8: `example.com` submitted without a scheme while the network is down;
the page is requested at `https://example.com`, the stored URL stays `example.com`. -/
theorem createBookmark_persists_raw_url_witness :
    ∃ info summary,
      (extractWebsiteInfo offlineWorld (lit "example.com")).out = .ok info ∧
      (generateSummary offlineWorld (lit "example.com") info.title).out = .ok summary ∧
      (createBookmark offlineWorld ⟨[], 0⟩ ⟨lit "example.com", 7, []⟩).calls
        = (extractWebsiteInfo offlineWorld (lit "example.com")).calls
          ++ (generateSummary offlineWorld (lit "example.com") info.title).calls
          ++ [.dbInsert 7 (lit "example.com") info.title info.favicon summary] ∧
      (offlineWorld.dbFault = none →
        (createBookmark offlineWorld ⟨[], 0⟩ ⟨lit "example.com", 7, []⟩).response
          = ⟨201, .saved (lit "Bookmark saved successfully")
              { id := 1, userId := 7, url := lit "example.com", title := info.title,
                favicon := info.favicon, summary := summary }⟩ ∧
        (createBookmark offlineWorld ⟨[], 0⟩ ⟨lit "example.com", 7, []⟩).db.rows
          = [] ++ [{ id := 1, user_id := 7, url := lit "example.com",
                     title := info.title, favicon := info.favicon, summary := summary,
                     created_at := 0 }]) :=
  createBookmark_persists_raw_url offlineWorld ⟨[], 0⟩ ⟨lit "example.com", 7, []⟩ rfl

/-- C9. For a validated request, whatever the page fetch and the remote summariser do,
`createBookmark` reaches `Bookmark.create`; it responds 201 with the object the store
resolved whenever the store call succeeds, and a 500 response occurs only when the store
call rejects. -/
theorem createBookmark_fails_only_on_store (w : World) (db : Store) (req : Request)
    (hv : req.validationErrors = []) :
    ∃ info summary,
      (extractWebsiteInfo w req.url).out = .ok info ∧
      (generateSummary w req.url info.title).out = .ok summary ∧
      (∀ db1 bookmark,
        Bookmark.create w db req.userId req.url info.title info.favicon summary
          = (db1, .ok bookmark) →
        (createBookmark w db req).response
          = ⟨201, .saved (lit "Bookmark saved successfully") bookmark⟩ ∧
        (createBookmark w db req).db = db1) ∧
      ((createBookmark w db req).response.status = 500 →
        (createBookmark w db req).response = ⟨500, .message (lit "Error saving bookmark")⟩ ∧
        ∃ db1 e, Bookmark.create w db req.userId req.url info.title info.favicon summary
          = (db1, .error e)) ∧
      (w.dbFault = none → (createBookmark w db req).response.status = 201) := by
  obtain ⟨info, h1⟩ := extract_never_throws w req.url
  obtain ⟨c2, summary, h2⟩ := generateSummary_never_throws w req.url info.title
  have hc := createBookmark_valid w db req info summary _ c2 hv h1 h2
  refine ⟨info, summary, by rw [h1], by rw [h2], ?_, ?_, ?_⟩
  · intro db1 bookmark hb
    rw [hc, hb]
    exact ⟨rfl, rfl⟩
  · intro h5
    cases hf : w.dbFault with
    | none =>
      rw [hc, create_ok w db _ _ _ _ _ hf] at h5
      cases h5
    | some e =>
      rw [hc, create_rejects w db _ _ _ _ _ e hf]
      exact ⟨rfl, db, e, rfl⟩
  · intro hf
    rw [hc, create_ok w db _ _ _ _ _ hf]

/-- Witness for C9: page fetch and summariser both fail, the store works, the answer is
201. -/
theorem createBookmark_fails_only_on_store_witness :
    unreachableWorld.fetchText (ensureProtocol (lit "example.com")) = none ∧
    unreachableWorld.axiosPost (ensureProtocol (lit "example.com")) (lit "key") = none ∧
    (createBookmark unreachableWorld ⟨[], 0⟩ ⟨lit "example.com", 7, []⟩).response.status
      = 201 :=
  ⟨rfl, rfl,
   (createBookmark_fails_only_on_store unreachableWorld ⟨[], 0⟩ ⟨lit "example.com", 7, []⟩
      rfl).elim (fun _ h => h.elim (fun _ h2 => h2.2.2.2.2 rfl))⟩

/-! ## Ownership isolation in the bookmark store -/

theorem wellFormed_empty : (⟨[], 0⟩ : Store).wellFormed := by
  constructor
  · simp
  · intro row h
    cases h

theorem create_keeps_wellFormed (w : World) (db : Store) (userId : Nat)
    (url title favicon summary : JSString) (h : db.wellFormed) :
    (Bookmark.create w db userId url title favicon summary).1.wellFormed := by
  cases hf : w.dbFault with
  | some e => rw [create_rejects w db _ _ _ _ _ e hf]; exact h
  | none =>
    rw [create_ok w db _ _ _ _ _ hf]
    obtain ⟨hn, hle⟩ := h
    constructor
    · simp only [List.map_append, List.map_cons, List.map_nil]
      rw [List.nodup_append]
      refine ⟨hn, by simp, ?_⟩
      intro a ha hb
      obtain ⟨row, hrow, hid⟩ := List.mem_map.mp ha
      have h1 := hle row hrow
      have h2 : a = db.seq + 1 := by simpa using hb
      omega
    · intro row hrow
      rcases List.mem_append.mp hrow with h1 | h1
      · exact Nat.le_succ_of_le (hle row h1)
      · have : row.id = db.seq + 1 := by
          have h2 := List.mem_singleton.mp h1
          rw [h2]
        exact Nat.le_of_eq this

theorem delete_keeps_wellFormed (w : World) (db : Store) (id : Option Nat) (userId : Nat)
    (h : db.wellFormed) : (Bookmark.delete w db id userId).1.wellFormed := by
  cases hf : w.dbFault with
  | some e => simp only [Bookmark.delete, hf]; exact h
  | none =>
    simp only [Bookmark.delete, hf]
    obtain ⟨hn, hle⟩ := h
    constructor
    · exact (List.filter_sublist db.rows).map BookmarkRow.id |>.nodup hn
    · intro row hrow
      exact hle row (List.mem_of_mem_filter hrow)

theorem unique_row_of_id (db : Store) (row r : BookmarkRow) (hwf : db.wellFormed)
    (hrow : row ∈ db.rows) (hr : r ∈ db.rows) (hid : r.id = row.id) : r = row :=
  List.inj_on_of_nodup_map hwf.1 hr hrow hid

theorem no_foreign_match (db : Store) (row : BookmarkRow) (b u v : Nat) (hwf : db.wellFormed)
    (hrow : row ∈ db.rows) (hb : row.id = b) (hu : row.user_id = u) (hv : v ≠ u) :
    ∀ r ∈ db.rows, ownedBy (some b) v r = false := by
  intro r hr
  by_cases hid : r.id = b
  · have he : r = row := unique_row_of_id db row r hwf hrow hr (hid.trans hb.symm)
    have hne : ¬ r.user_id = v := by
      rw [he, hu]
      exact fun e => hv e.symm
    simp [ownedBy, hne]
  · simp [ownedBy, hid]

theorem getById_foreign (w : World) (db : Store) (b v : Nat) (hf : w.dbFault = none)
    (hno : ∀ r ∈ db.rows, ownedBy (some b) v r = false) :
    Bookmark.getById w db (some b) v = .ok none := by
  have : db.rows.find? (ownedBy (some b) v) = none := by
    rw [List.find?_eq_none]
    intro r hr
    simp [hno r hr]
  simp [Bookmark.getById, hf, this]

theorem delete_foreign (w : World) (db : Store) (b v : Nat) (hf : w.dbFault = none)
    (hno : ∀ r ∈ db.rows, ownedBy (some b) v r = false) :
    Bookmark.delete w db (some b) v = (db, .ok ⟨false⟩) := by
  have h1 : db.rows.filter (ownedBy (some b) v) = [] := by
    rw [List.filter_eq_nil_iff]
    intro r hr
    simp [hno r hr]
  have h2 : db.rows.filter (fun row => !ownedBy (some b) v row) = db.rows := by
    rw [List.filter_eq_self]
    intro r hr
    simp [hno r hr]
  simp [Bookmark.delete, hf, h1, h2]

theorem getById_owner (w : World) (db : Store) (row : BookmarkRow) (hf : w.dbFault = none)
    (hwf : db.wellFormed) (hrow : row ∈ db.rows) :
    Bookmark.getById w db (some row.id) row.user_id = .ok (some row) := by
  have : db.rows.find? (ownedBy (some row.id) row.user_id) = some row := by
    cases hfind : db.rows.find? (ownedBy (some row.id) row.user_id) with
    | none =>
      have := List.find?_eq_none.mp hfind row hrow
      simp [ownedBy] at this
    | some r =>
      have hp := List.find?_some hfind
      have hm := List.mem_of_find?_eq_some hfind
      simp only [ownedBy, Bool.and_eq_true, decide_eq_true_eq, Option.some.injEq] at hp
      rw [unique_row_of_id db row r hwf hrow hm hp.1]
  simp [Bookmark.getById, hf, this]
/-- C11. In a store whose ids are distinct (the primary key), let row `b` belong to user
`u` and let `v` differ from `u`. Then `Bookmark.getById(b, v)` never resolves with a row,
`Bookmark.delete(b, v)` and `deleteBookmark` leave the store exactly as it was, and when
the database answers: `getById(b, v)` resolves with no row, `delete(b, v)` resolves with
`deleted = false`, `deleteBookmark` responds 404 `Bookmark not found`, and `u` still
retrieves row `b`. -/
theorem ownership_isolation (w : World) (db : Store) (row : BookmarkRow) (b u v : Nat)
    (hwf : db.wellFormed) (hrow : row ∈ db.rows) (hb : row.id = b) (hu : row.user_id = u)
    (hv : v ≠ u) :
    (∀ r, Bookmark.getById w db (some b) v ≠ .ok (some r)) ∧
    (Bookmark.delete w db (some b) v).1 = db ∧
    (deleteBookmark w db ⟨some b, v⟩).2 = db ∧
    (w.dbFault = none →
      Bookmark.getById w db (some b) v = .ok none ∧
      Bookmark.delete w db (some b) v = (db, .ok ⟨false⟩) ∧
      deleteBookmark w db ⟨some b, v⟩ = (⟨404, .message (lit "Bookmark not found")⟩, db) ∧
      Bookmark.getById w db (some b) u = .ok (some row)) := by
  have hno := no_foreign_match db row b u v hwf hrow hb hu hv
  cases hf : w.dbFault with
  | some e =>
    refine ⟨?_, ?_, ?_, fun h => by cases h⟩
    · intro r h
      simp [Bookmark.getById, hf] at h
    · simp [Bookmark.delete, hf]
    · simp [deleteBookmark, Bookmark.delete, hf]
  | none =>
    have hg := getById_foreign w db b v hf hno
    have hd := delete_foreign w db b v hf hno
    have hh : deleteBookmark w db ⟨some b, v⟩
        = (⟨404, .message (lit "Bookmark not found")⟩, db) := by
      simp [deleteBookmark, hd]
    refine ⟨?_, by rw [hd], by rw [hh], fun _ => ⟨hg, hd, hh, ?_⟩⟩
    · intro r h
      rw [hg] at h
      cases h
    · have := getById_owner w db row hf hwf hrow
      rw [hb, hu] at this
      exact this

/-- Witness for C11: user 8 asks for and tries to delete bookmark 1 of user 7. -/
theorem ownership_isolation_witness :
    sampleStore.wellFormed ∧
    Bookmark.getById offlineWorld sampleStore (some 1) 8 = .ok none ∧
    Bookmark.delete offlineWorld sampleStore (some 1) 8 = (sampleStore, .ok ⟨false⟩) ∧
    deleteBookmark offlineWorld sampleStore ⟨some 1, 8⟩
      = (⟨404, .message (lit "Bookmark not found")⟩, sampleStore) ∧
    Bookmark.getById offlineWorld sampleStore (some 1) 7
      = .ok (some ⟨1, 7, lit "example.com", lit "Example", [], lit "first", 0⟩) :=
  ⟨by decide,
   (ownership_isolation offlineWorld sampleStore
      ⟨1, 7, lit "example.com", lit "Example", [], lit "first", 0⟩ 1 7 8
      (by decide) (by decide) rfl rfl (by decide)).2.2.2 rfl⟩

end LinkSaver
